import Mathlib

/-!
Verification of the FerroDB specification against a shallow embedding of the
source (src/protocol.rs, src/storage.rs, src/persistance.rs, src/commands.rs).

Rust strings are modeled as `List Char` (byte-level and char-level lengths
coincide on every input exercised here and are applied consistently on both
the encode and the decode side).  Machine-integer overflow is not modeled for
the decimal parsers because no reachable input (a length of an actual string,
a count of an actual vector) can overflow `i64`/`usize`.
-/

set_option maxHeartbeats 1000000
set_option linter.unusedVariables false

abbrev Str := List Char

/-! ## Wire protocol (src/protocol.rs) -/

/-- `RespValue` from src/protocol.rs. -/
inductive RespValue where
  | SimpleString (s : Str)
  | BulkString (s : Str)
  | Array (elems : List RespValue)
  | Null
  | Integer (x : Int)

/-- The two-character line terminator of the RESP text format. -/
def CRLF : Str := ['\r', '\n']

/-- Decimal digit character, `d < 10` (embeds the digits of Rust integer
formatting). -/
def digitChar (d : Nat) : Char := Char.ofNat (48 + d)

/-- Recursion worker for `natDigits`; the fuel only bounds the number of
digits and is never exhausted for the fuel chosen by `natDigits`. -/
def natDigitsAux : Nat → Nat → Str
  | 0, _ => []
  | fuel + 1, n =>
    if n < 10 then [digitChar n]
    else natDigitsAux fuel (n / 10) ++ [digitChar (n % 10)]

/-- Decimal representation of a natural number, most significant digit first,
`0` rendered as `"0"`; embeds Rust `format!` of `u64`/`usize`. -/
def natDigits (n : Nat) : Str := natDigitsAux (n + 1) n

/-- Decimal representation of an integer; embeds Rust `format!` of `i64`. -/
def intChars (x : Int) : Str :=
  if x < 0 then '-' :: natDigits x.natAbs else natDigits x.toNat

/-- Accumulate decimal digits into a natural number. -/
def charsToNat (l : Str) : Nat := l.foldl (fun acc c => acc * 10 + (c.toNat - 48)) 0

/-- ASCII decimal digit test. -/
def isDigitCh (c : Char) : Bool := 48 ≤ c.toNat && c.toNat ≤ 57

/-- One or more ASCII digits, else `none`. -/
def parseDigits (l : Str) : Option Nat :=
  if !l.isEmpty && l.all isDigitCh then some (charsToNat l) else none

/-- Embeds Rust `str::parse` for unsigned integers (`usize`): an optional
leading plus sign followed by one or more ASCII digits. -/
def rustParseNat (l : Str) : Option Nat :=
  match l with
  | '+' :: rest => parseDigits rest
  | _ => parseDigits l

/-- Embeds Rust `str::parse::<i64>`: an optional sign followed by one or more
ASCII digits. -/
def rustParseInt (l : Str) : Option Int :=
  match l with
  | '-' :: rest => (parseDigits rest).map (fun n => -(n : Int))
  | '+' :: rest => (parseDigits rest).map (fun n => (n : Int))
  | _ => (parseDigits l).map (fun n => (n : Int))

/-- Embeds Rust `input.split("\r\n")`: splits at each (leftmost-first)
occurrence of CRLF; the empty input yields one empty piece, and a trailing
CRLF yields a trailing empty piece. -/
def splitCRLF : Str → List Str
  | [] => [[]]
  | '\r' :: '\n' :: rest => [] :: splitCRLF rest
  | c :: rest =>
    match splitCRLF rest with
    | [] => [[c]]
    | l :: ls => (c :: l) :: ls

/-- Error outcomes of `parse_recursive`/`parse_resp` in src/protocol.rs, one
constructor per distinct `Err` site (the Rust code uses strings). -/
inductive ParseErr where
  | emptyInput
  | missingPrefix
  | invalidLength
  | negativeBulkLength
  | missingBulkData
  | bulkLengthMismatch
  | invalidArrayLength
  | unknownPrefix (c : Char)
deriving DecidableEq, Repr

mutual

/-- `parse_recursive` from src/protocol.rs, operating on the list of
CRLF-separated lines.  The Rust function recurses over a mutable line
iterator; here the remaining lines are returned explicitly and a fuel
parameter bounds the recursion depth.  Every fuel step either consumes a
line or advances the element loop of an array (whose next step consumes a
line), so the fuel chosen by `parse_resp` is never exhausted; the
(unreachable) exhaustion case reuses the `emptyInput` error. -/
def parse_recursive : Nat → List Str → Except ParseErr (RespValue × List Str)
  | 0, _ => .error .emptyInput
  | fuel + 1, lines =>
    match lines.dropWhile List.isEmpty with
    | [] => .error .emptyInput
    | line :: rest =>
      match line with
      | [] => .error .missingPrefix
      | prefixCh :: body =>
        if prefixCh = '+' then .ok (.SimpleString body, rest)
        else if prefixCh = '$' then
          match rustParseInt body with
          | none => .error .invalidLength
          | some len =>
            if len = -1 then .ok (.Null, rest)
            else if len < 0 then .error .negativeBulkLength
            else
              match rest with
              | [] => .error .missingBulkData
              | data :: rest2 =>
                if data.length = len.toNat then .ok (.BulkString data, rest2)
                else .error .bulkLengthMismatch
        else if prefixCh = '*' then
          match rustParseNat body with
          | none => .error .invalidArrayLength
          | some count =>
            match parse_items fuel count rest with
            | .error e => .error e
            | .ok (items, rest2) => .ok (.Array items, rest2)
        else .error (.unknownPrefix prefixCh)

/-- The element loop of the `'*'` arm of `parse_recursive` (the Rust
`for _ in 0..count` loop); a zero count succeeds without consuming fuel. -/
def parse_items : Nat → Nat → List Str → Except ParseErr (List RespValue × List Str)
  | _, 0, lines => .ok ([], lines)
  | 0, _ + 1, _ => .error .emptyInput
  | fuel + 1, n + 1, lines =>
    match parse_recursive fuel lines with
    | .error e => .error e
    | .ok (v, rest) =>
      match parse_items fuel n rest with
      | .error e => .error e
      | .ok (vs, rest2) => .ok (v :: vs, rest2)

end

/-- `parse_resp` from src/protocol.rs: split the input at CRLF boundaries and
parse one value, discarding any trailing lines.  Twice the number of lines
plus two always over-approximates the recursion depth of the Rust function,
so the fuel never runs out. -/
def parse_resp (input : Str) : Except ParseErr RespValue :=
  let lines := splitCRLF input
  match parse_recursive (2 * lines.length + 2) lines with
  | .error e => .error e
  | .ok (v, _) => .ok v

mutual

/-- `RespValue::encode` from src/protocol.rs. -/
def RespValue.encode : RespValue → Str
  | .SimpleString s => '+' :: s ++ CRLF
  | .BulkString s => '$' :: natDigits s.length ++ CRLF ++ s ++ CRLF
  | .Array elems => '*' :: natDigits elems.length ++ CRLF ++ encodeElems elems
  | .Null => '$' :: '-' :: '1' :: CRLF
  | .Integer x => ':' :: intChars x ++ CRLF

/-- Concatenation of the encodings of the array elements. -/
def encodeElems : List RespValue → Str
  | [] => []
  | v :: vs => v.encode ++ encodeElems vs

end

/-- Whether the string contains the CRLF sequence as a contiguous substring. -/
def hasCRLF : Str → Bool
  | [] => false
  | c :: rest => (c == '\r' && rest.head? == some '\n') || hasCRLF rest

/-- Join a list of lines with a CRLF terminator after each line. -/
def joinCRLF : List Str → Str
  | [] => []
  | l :: ls => l ++ '\r' :: '\n' :: joinCRLF ls

mutual

/-- The CRLF-terminated lines of the canonical encoding, terminators
stripped. -/
def encLines : RespValue → List Str
  | .SimpleString s => ['+' :: s]
  | .BulkString s => ['$' :: natDigits s.length, s]
  | .Array elems => ('*' :: natDigits elems.length) :: encLinesList elems
  | .Null => [['$', '-', '1']]
  | .Integer x => [':' :: intChars x]

/-- Lines of a list of encoded values, concatenated. -/
def encLinesList : List RespValue → List Str
  | [] => []
  | v :: vs => encLines v ++ encLinesList vs

end

mutual

/-- Values on which encode-then-decode can round-trip: no `Integer`
anywhere (the parser of src/protocol.rs has no arm for the `:` prefix) and
no CRLF inside any `SimpleString`/`BulkString` payload (the parser splits
the whole input at every CRLF). -/
def RespValue.goodB : RespValue → Bool
  | .SimpleString s => !hasCRLF s
  | .BulkString s => !hasCRLF s
  | .Array elems => goodListB elems
  | .Null => true
  | .Integer _ => false

/-- `RespValue.goodB` on every element of a list. -/
def goodListB : List RespValue → Bool
  | [] => true
  | v :: vs => v.goodB && goodListB vs

end

/-! ### Decimal digits round-trip -/

theorem digitChar_toNat {d : Nat} (h : d < 10) : (digitChar d).toNat = 48 + d := by
  interval_cases d <;> rfl

theorem isDigitCh_digitChar {d : Nat} (h : d < 10) : isDigitCh (digitChar d) = true := by
  interval_cases d <;> rfl

theorem charsToNat_append_singleton (l : Str) (c : Char) :
    charsToNat (l ++ [c]) = charsToNat l * 10 + (c.toNat - 48) := by
  simp [charsToNat, List.foldl_append]

theorem natDigitsAux_spec :
    ∀ fuel n, 0 < fuel → n < 10 ^ fuel →
      natDigitsAux fuel n ≠ [] ∧ (natDigitsAux fuel n).all isDigitCh = true ∧
        charsToNat (natDigitsAux fuel n) = n := by
  intro fuel
  induction fuel with
  | zero => intro n h; omega
  | succ fuel ih =>
    intro n _ hn
    by_cases hsmall : n < 10
    · refine ⟨by simp [natDigitsAux, hsmall], ?_, ?_⟩
      · simp [natDigitsAux, hsmall, isDigitCh_digitChar]
      · simp [natDigitsAux, hsmall, charsToNat, digitChar_toNat hsmall]
    · have hfuel : 0 < fuel := by
        by_contra hf
        have : fuel = 0 := by omega
        subst this
        simp at hn
        omega
      have hdiv : n / 10 < 10 ^ fuel := by
        have h10 : (10 : Nat) ^ (fuel + 1) = 10 ^ fuel * 10 := by ring
        omega
      obtain ⟨h1, h2, h3⟩ := ih (n / 10) hfuel hdiv
      have hmod : n % 10 < 10 := Nat.mod_lt _ (by omega)
      refine ⟨by simp [natDigitsAux, hsmall], ?_, ?_⟩
      · simp [natDigitsAux, hsmall, List.all_append]
        exact ⟨by simpa using h2, by simpa using isDigitCh_digitChar hmod⟩
      · rw [natDigitsAux, if_neg hsmall, charsToNat_append_singleton, h3,
          digitChar_toNat hmod]
        omega

theorem natDigits_spec (n : Nat) :
    natDigits n ≠ [] ∧ (natDigits n).all isDigitCh = true ∧
      charsToNat (natDigits n) = n := by
  have hpow : n < 10 ^ (n + 1) := by
    calc n < 10 ^ n := Nat.lt_pow_self (by omega) n
    _ ≤ 10 ^ (n + 1) := Nat.pow_le_pow_right (by omega) (by omega)
  exact natDigitsAux_spec (n + 1) n (by omega) hpow

theorem parseDigits_natDigits (n : Nat) : parseDigits (natDigits n) = some n := by
  obtain ⟨h1, h2, h3⟩ := natDigits_spec n
  simp [parseDigits, h1, h2, h3, List.isEmpty_iff]

theorem head_natDigits_isDigit (n : Nat) :
    ∀ c rest, natDigits n = c :: rest → isDigitCh c = true := by
  intro c rest h
  obtain ⟨_, h2, _⟩ := natDigits_spec n
  rw [h] at h2
  simp [List.all_cons] at h2
  exact h2.1

theorem rustParseNat_natDigits (n : Nat) : rustParseNat (natDigits n) = some n := by
  rw [rustParseNat.eq_def]
  split
  · next rest heq =>
    have := head_natDigits_isDigit n '+' rest heq
    simp [isDigitCh] at this
  · exact parseDigits_natDigits n

theorem rustParseInt_natDigits (n : Nat) : rustParseInt (natDigits n) = some (n : Int) := by
  rw [rustParseInt.eq_def]
  split
  · next rest heq =>
    have := head_natDigits_isDigit n '-' rest heq
    simp [isDigitCh] at this
  · next rest heq =>
    have := head_natDigits_isDigit n '+' rest heq
    simp [isDigitCh] at this
  · rw [parseDigits_natDigits n]
    rfl

theorem rustParseInt_intChars (x : Int) : rustParseInt (intChars x) = some x := by
  by_cases hx : x < 0
  · rw [intChars, if_pos hx, rustParseInt]
    rw [parseDigits_natDigits]
    have habs : ((Int.natAbs x : Nat) : Int) = -x := by omega
    simp [habs]
  · rw [intChars, if_neg hx]
    rw [rustParseInt_natDigits]
    congr 1
    omega

/-! ### CRLF splitting -/

theorem splitCRLF_crlf (rest : Str) : splitCRLF ('\r' :: '\n' :: rest) = [] :: splitCRLF rest := rfl

theorem splitCRLF_cons_of (c : Char) (rest : Str)
    (h : ¬(c = '\r' ∧ rest.head? = some '\n')) :
    splitCRLF (c :: rest) =
      match splitCRLF rest with
      | [] => [[c]]
      | l :: ls => (c :: l) :: ls := by
  rw [splitCRLF.eq_def]
  split
  · next heq => exact absurd heq (by simp)
  · next r heq =>
    injection heq with h1 h2
    subst h1 h2
    exact absurd ⟨rfl, rfl⟩ h
  · next x r heq hne =>
    injection hne with h1 h2
    subst h1 h2
    rfl

theorem hasCRLF_cons_eq (c : Char) (l : Str) :
    hasCRLF (c :: l) = ((c == '\r' && l.head? == some '\n') || hasCRLF l) := rfl

theorem splitCRLF_append (l rest : Str) (h : hasCRLF l = false) :
    splitCRLF (l ++ '\r' :: '\n' :: rest) = l :: splitCRLF rest := by
  induction l with
  | nil => simpa using splitCRLF_crlf rest
  | cons c t ih =>
    have hsub : hasCRLF t = false := by
      rw [hasCRLF_cons_eq] at h
      simp at h
      exact h.2
    have hcond : ¬(c = '\r' ∧ (t ++ '\r' :: '\n' :: rest).head? = some '\n') := by
      rintro ⟨hc, hh⟩
      cases t with
      | nil => simp at hh
      | cons d t2 =>
        simp at hh
        rw [hasCRLF_cons_eq] at h
        simp [hc, hh] at h
    rw [List.cons_append, splitCRLF_cons_of c _ hcond, ih hsub]

theorem splitCRLF_join_append (ls : List Str) (rest : Str)
    (h : ∀ l ∈ ls, hasCRLF l = false) :
    splitCRLF (joinCRLF ls ++ rest) = ls ++ splitCRLF rest := by
  induction ls with
  | nil => simp [joinCRLF]
  | cons l ls ih =>
    rw [joinCRLF, List.append_assoc, List.cons_append, List.cons_append]
    rw [splitCRLF_append l _ (h l (by simp))]
    rw [ih (fun x hx => h x (by simp [hx]))]
    rfl

theorem splitCRLF_join (ls : List Str) (h : ∀ l ∈ ls, hasCRLF l = false) :
    splitCRLF (joinCRLF ls) = ls ++ [[]] := by
  have := splitCRLF_join_append ls [] h
  simpa using this

/-! ### Encoding facts and the C1 round-trip -/

theorem joinCRLF_append (a b : List Str) :
    joinCRLF (a ++ b) = joinCRLF a ++ joinCRLF b := by
  induction a with
  | nil => simp [joinCRLF]
  | cons l ls ih => simp [joinCRLF, ih]

theorem hasCRLF_of_all_digits (l : Str) (h : l.all isDigitCh = true) :
    hasCRLF l = false := by
  induction l with
  | nil => rfl
  | cons c t ih =>
    rw [List.all_cons, Bool.and_eq_true] at h
    rw [hasCRLF]
    have hc : (c == '\r') = false := by
      have := h.1
      simp [isDigitCh] at this
      simp only [beq_eq_false_iff_ne, ne_eq]
      intro he
      subst he
      simp at this
    simp [hc, ih h.2]


theorem hasCRLF_natDigits (n : Nat) : hasCRLF (natDigits n) = false :=
  hasCRLF_of_all_digits _ (natDigits_spec n).2.1

theorem hasCRLF_cons_head {c : Char} {l : Str} (hc : (c == '\r') = false)
    (hl : hasCRLF l = false) : hasCRLF (c :: l) = false := by
  rw [hasCRLF]
  simp [hc, hl]

theorem encLines_length_pos (v : RespValue) : 1 ≤ (encLines v).length := by
  cases v <;> simp [encLines]

theorem encode_join_aux : ∀ N : Nat,
    (∀ v : RespValue, sizeOf v ≤ N → v.encode = joinCRLF (encLines v)) ∧
    (∀ vs : List RespValue, sizeOf vs ≤ N →
      encodeElems vs = joinCRLF (encLinesList vs)) := by
  intro N
  induction N using Nat.strong_induction_on with
  | _ N ih =>
    constructor
    · intro v hv
      cases v with
      | SimpleString s => simp [RespValue.encode, encLines, joinCRLF, CRLF]
      | BulkString s => simp [RespValue.encode, encLines, joinCRLF, CRLF]
      | Null => simp [RespValue.encode, encLines, joinCRLF, CRLF]
      | Integer x => simp [RespValue.encode, encLines, joinCRLF, CRLF]
      | Array elems =>
        have hsz : sizeOf elems < N := by
          simp at hv
          omega
        have h2 := (ih _ hsz).2 elems le_rfl
        simp [RespValue.encode, encLines, joinCRLF, CRLF, h2]
    · intro vs hvs
      cases vs with
      | nil => rfl
      | cons v vs2 =>
        have h1 : sizeOf v < N := by simp at hvs; omega
        have h2 : sizeOf vs2 < N := by simp at hvs; omega
        have e1 := (ih _ h1).1 v le_rfl
        have e2 := (ih _ h2).2 vs2 le_rfl
        simp [encodeElems, encLinesList, e1, e2, joinCRLF_append]

theorem encode_eq_join (v : RespValue) : v.encode = joinCRLF (encLines v) :=
  (encode_join_aux (sizeOf v)).1 v le_rfl

theorem good_lines_aux : ∀ N : Nat,
    (∀ v : RespValue, sizeOf v ≤ N → v.goodB = true →
      ∀ l ∈ encLines v, hasCRLF l = false) ∧
    (∀ vs : List RespValue, sizeOf vs ≤ N → goodListB vs = true →
      ∀ l ∈ encLinesList vs, hasCRLF l = false) := by
  intro N
  induction N using Nat.strong_induction_on with
  | _ N ih =>
    constructor
    · intro v hv hg l hl
      cases v with
      | SimpleString s =>
        simp [encLines] at hl
        subst hl
        simp [RespValue.goodB] at hg
        exact hasCRLF_cons_head (by decide) hg
      | BulkString s =>
        simp [RespValue.goodB] at hg
        simp [encLines] at hl
        rcases hl with h | h
        · subst h
          exact hasCRLF_cons_head (by decide) (hasCRLF_natDigits _)
        · subst h
          exact hg
      | Null =>
        simp [encLines] at hl
        subst hl
        decide
      | Integer x => simp [RespValue.goodB] at hg
      | Array elems =>
        simp [RespValue.goodB] at hg
        have hsz : sizeOf elems < N := by simp at hv; omega
        simp [encLines] at hl
        rcases hl with h | h
        · subst h
          exact hasCRLF_cons_head (by decide) (hasCRLF_natDigits _)
        · exact (ih _ hsz).2 elems le_rfl hg l h
    · intro vs hvs hg l hl
      cases vs with
      | nil => simp [encLinesList] at hl
      | cons v vs2 =>
        simp [goodListB] at hg
        have h1 : sizeOf v < N := by simp at hvs; omega
        have h2 : sizeOf vs2 < N := by simp at hvs; omega
        simp [encLinesList] at hl
        rcases hl with h | h
        · exact (ih _ h1).1 v le_rfl hg.1 l h
        · exact (ih _ h2).2 vs2 le_rfl hg.2 l h

theorem good_lines (v : RespValue) (hg : v.goodB = true) :
    ∀ l ∈ encLines v, hasCRLF l = false :=
  (good_lines_aux (sizeOf v)).1 v le_rfl hg

theorem parse_step_simple (fuel : Nat) (s : Str) (rest : List Str) :
    parse_recursive (fuel + 1) (('+' :: s) :: rest) = .ok (.SimpleString s, rest) := by
  simp [parse_recursive, List.dropWhile_cons]

theorem parse_step_bulk (fuel : Nat) (s : Str) (rest : List Str) :
    parse_recursive (fuel + 1) (('$' :: natDigits s.length) :: s :: rest) =
      .ok (.BulkString s, rest) := by
  simp [parse_recursive, List.dropWhile_cons, rustParseInt_natDigits]

theorem parse_step_null (fuel : Nat) (rest : List Str) :
    parse_recursive (fuel + 1) (['$', '-', '1'] :: rest) = .ok (.Null, rest) := by
  simp [parse_recursive, List.dropWhile_cons]
  rfl

theorem parse_step_array (fuel : Nat) (n : Nat) (rest : List Str) :
    parse_recursive (fuel + 1) (('*' :: natDigits n) :: rest) =
      match parse_items fuel n rest with
      | .error e => .error e
      | .ok (items, rest2) => .ok (.Array items, rest2) := by
  simp [parse_recursive, List.dropWhile_cons, rustParseNat_natDigits]

theorem parse_encode_main : ∀ fuel : Nat,
    (∀ v : RespValue, v.goodB = true → 2 * (encLines v).length ≤ fuel + 1 →
      ∀ rest, parse_recursive fuel (encLines v ++ rest) = .ok (v, rest)) ∧
    (∀ vs : List RespValue, goodListB vs = true →
      2 * (encLinesList vs).length ≤ fuel →
      ∀ rest, parse_items fuel vs.length (encLinesList vs ++ rest) = .ok (vs, rest)) := by
  intro fuel
  induction fuel with
  | zero =>
    constructor
    · intro v _ hb rest
      exfalso
      have := encLines_length_pos v
      omega
    · intro vs hg hb rest
      cases vs with
      | nil => simp [encLinesList, parse_items]
      | cons v vs2 =>
        exfalso
        have h1 := encLines_length_pos v
        have hlen : (encLinesList (v :: vs2)).length =
            (encLines v).length + (encLinesList vs2).length := by
          simp [encLinesList]
        omega
  | succ fuel ih =>
    constructor
    · intro v hg hb rest
      cases v with
      | SimpleString s => simpa [encLines] using parse_step_simple fuel s rest
      | BulkString s => simpa [encLines] using parse_step_bulk fuel s rest
      | Null => simpa [encLines] using parse_step_null fuel rest
      | Integer x => simp [RespValue.goodB] at hg
      | Array elems =>
        simp [RespValue.goodB] at hg
        have hlen : 2 * (encLinesList elems).length ≤ fuel := by
          simp [encLines] at hb
          omega
        have hitems := ih.2 elems hg hlen rest
        rw [encLines, List.cons_append, parse_step_array fuel elems.length _]
        rw [hitems]
    · intro vs hg hb rest
      cases vs with
      | nil => simp [encLinesList, parse_items]
      | cons v vs2 =>
        simp [goodListB] at hg
        have hLv := encLines_length_pos v
        have hlen : (encLinesList (v :: vs2)).length =
            (encLines v).length + (encLinesList vs2).length := by
          simp [encLinesList]
        rw [hlen] at hb
        have hv := ih.1 v hg.1 (by omega) (encLinesList vs2 ++ rest)
        have hvs := ih.2 vs2 hg.2 (by omega) rest
        show parse_items (fuel + 1) (vs2.length + 1)
          ((encLines v ++ encLinesList vs2) ++ rest) = _
        rw [List.append_assoc, parse_items, hv]
        simp [hvs]

/-- C1 (amended): encode-then-decode is the identity on values that contain
no `Integer` and no CRLF sequence inside a string payload. -/
theorem C1_roundtrip_amended (v : RespValue) (h : v.goodB = true) :
    parse_resp (v.encode) = .ok v := by
  have hsplit : splitCRLF (v.encode) = encLines v ++ [[]] := by
    rw [encode_eq_join]
    exact splitCRLF_join _ (good_lines v h)
  have hpos := encLines_length_pos v
  rw [parse_resp]
  simp only [hsplit]
  have hmain := (parse_encode_main (2 * (encLines v ++ [[]]).length + 2)).1 v h
    (by simp; omega) [[]]
  rw [hmain]

/-- C1 counterexample. -/
theorem C1_counterexample :
    parse_resp ((RespValue.Integer 5).encode) = .error (.unknownPrefix ':') ∧
    parse_resp ((RespValue.BulkString ['a', '\r', '\n', 'b']).encode) =
      .error .bulkLengthMismatch := by
  have h1 : (RespValue.Integer 5).encode = [':', '5', '\r', '\n'] := by
    simp only [RespValue.encode]
    rfl
  have h2 : (RespValue.BulkString ['a', '\r', '\n', 'b']).encode =
      ['$', '4', '\r', '\n', 'a', '\r', '\n', 'b', '\r', '\n'] := by
    simp only [RespValue.encode]
    rfl
  constructor
  · rw [h1]
    rfl
  · rw [h2]
    rfl

/-- C1 witness. -/
theorem C1_witness :
    (RespValue.Array [.BulkString ['S', 'E', 'T'], .SimpleString ['o', 'k'],
        .Null, .Array []]).goodB = true ∧
    parse_resp ((RespValue.Array [.BulkString ['S', 'E', 'T'],
        .SimpleString ['o', 'k'], .Null, .Array []]).encode) =
      .ok (.Array [.BulkString ['S', 'E', 'T'], .SimpleString ['o', 'k'],
        .Null, .Array []]) := by
  have hg : (RespValue.Array [.BulkString ['S', 'E', 'T'],
      .SimpleString ['o', 'k'], .Null, .Array []]).goodB = true := by
    simp [RespValue.goodB, goodListB, hasCRLF]
  exact ⟨hg, C1_roundtrip_amended _ hg⟩

/-! ## Storage (src/storage.rs)

Time: `Instant` is modeled as a natural number of seconds (`now` is passed
to each operation); `expiry <= Instant::now()` becomes `t ≤ now`.
Scores: `OrderedFloat<f64>` is modeled by `Int` (the claims settled here
depend only on scores carrying decidable equality and a total order).
`HashMap`/`BTreeMap` are association lists (`BTreeMap` kept sorted by key);
`HashSet` is a duplicate-free list. -/

abbrev Score := Int

/-- Association-list lookup (first match), embedding `HashMap::get` /
`BTreeMap::get`. -/
def lookupA {α β : Type} [DecidableEq α] : List (α × β) → α → Option β
  | [], _ => none
  | (k, v) :: rest, key => if k = key then some v else lookupA rest key

/-- Association-list insert-or-replace in place, embedding
`HashMap::insert` for the key-position-irrelevant hash maps. -/
def insertA {α β : Type} [DecidableEq α] : List (α × β) → α → β → List (α × β)
  | [], key, val => [(key, val)]
  | (k, v) :: rest, key, val =>
    if k = key then (key, val) :: rest else (k, v) :: insertA rest key val

/-- Association-list removal of the entry with the given key, embedding
`HashMap::remove` / `BTreeMap::remove`. -/
def removeA {α β : Type} [DecidableEq α] : List (α × β) → α → List (α × β)
  | [], _ => []
  | (k, v) :: rest, key => if k = key then rest else (k, v) :: removeA rest key

/-- Sorted association-list insert-or-replace, embedding `BTreeMap::insert`
(and `entry().or_insert_with`) on the score index. -/
def btreeInsert {β : Type} : List (Score × β) → Score → β → List (Score × β)
  | [], key, val => [(key, val)]
  | (k, v) :: rest, key, val =>
    if key < k then (key, val) :: (k, v) :: rest
    else if key = k then (key, val) :: rest
    else (k, v) :: btreeInsert rest key val

/-- `HashSet::insert`: add the element if absent. -/
def setInsert (s : List Str) (m : Str) : List Str :=
  if m ∈ s then s else s ++ [m]

/-- Rust `&str` comparison (lexicographic). -/
def strLt : Str → Str → Bool
  | [], [] => false
  | [], _ :: _ => true
  | _ :: _, [] => false
  | a :: as2, b :: bs => if a < b then true else if b < a then false else strLt as2 bs

/-- `SortedSetData` from src/storage.rs: score index (`BTreeMap`, sorted)
and member index (`HashMap`). -/
structure SortedSetData where
  scores : List (Score × List Str)
  members : List (Str × Score)
deriving DecidableEq

/-- `SortedSetData::new`. -/
def SortedSetData.new : SortedSetData := ⟨[], []⟩

/-- `SortedSetData::len`. -/
def SortedSetData.len (z : SortedSetData) : Nat := z.members.length

/-- `SortedSetData::is_empty`. -/
def SortedSetData.is_empty (z : SortedSetData) : Bool := z.members.isEmpty

/-- `DataType` from src/storage.rs. -/
inductive DataType where
  | String (s : Str)
  | List (l : List Str)
  | Set (s : List Str)
  | SortedSet (z : SortedSetData)
deriving DecidableEq

/-- `ValueWithExpiry` from src/storage.rs; `expires_at` is an absolute
instant in seconds. -/
structure ValueWithExpiry where
  data : DataType
  expires_at : Option Nat
deriving DecidableEq

/-- `ValueWithExpiry::new_list`. -/
def ValueWithExpiry.new_list : ValueWithExpiry := ⟨.List [], none⟩

/-- `ValueWithExpiry::new_set`. -/
def ValueWithExpiry.new_set : ValueWithExpiry := ⟨.Set [], none⟩

/-- `ValueWithExpiry::new_sorted_set`. -/
def ValueWithExpiry.new_sorted_set : ValueWithExpiry := ⟨.SortedSet .new, none⟩

/-- `ValueWithExpiry::is_expired`: `expiry <= Instant::now()`. -/
def ValueWithExpiry.is_expired (e : ValueWithExpiry) (now : Nat) : Bool :=
  match e.expires_at with
  | none => false
  | some t => t ≤ now

/-- `ValueWithExpiry::ttl_seconds`: `-2` when expired, `-1` when the entry
has no expiry, else the remaining seconds. -/
def ValueWithExpiry.ttl_seconds (e : ValueWithExpiry) (now : Nat) : Option Int :=
  match e.expires_at with
  | none => some (-1)
  | some t => if now ≥ t then some (-2) else some ((t - now : Nat) : Int)

/-- The single error kind produced by the typed store operations in
src/storage.rs (the Rust code uses the string
`WRONGTYPE Operation against a key holding the wrong kind of value`). -/
inductive StoreErr where
  | wrongType
deriving DecidableEq

/-- The keyspace: `HashMap<String, ValueWithExpiry>` as an association
list.  Operations that take the write lock in the source return the updated
store; operations that only take the read lock cannot mutate and return
just their result. -/
abbrev FerroStore := List (Str × ValueWithExpiry)

namespace FerroStore

/-- `FerroStore::set`. -/
def set (db : FerroStore) (key value : Str) : FerroStore :=
  insertA db key ⟨.String value, none⟩

/-- `FerroStore::set_with_expiry`. -/
def set_with_expiry (db : FerroStore) (now : Nat) (key value : Str)
    (ttl_seconds : Nat) : FerroStore :=
  insertA db key ⟨.String value, some (now + ttl_seconds)⟩

/-- `FerroStore::get`: returns `None` if the key is absent, expired (the
entry is then removed), or holds a non-String value. -/
def get (db : FerroStore) (now : Nat) (key : Str) : Option Str × FerroStore :=
  match lookupA db key with
  | some entry =>
    if entry.is_expired now then (none, removeA db key)
    else
      match entry.data with
      | .String s => (some s, db)
      | _ => (none, db)
  | none => (none, db)

/-- `FerroStore::exists`. -/
def keyExists (db : FerroStore) (now : Nat) (key : Str) : Bool × FerroStore :=
  match lookupA db key with
  | some entry =>
    if entry.is_expired now then (false, removeA db key) else (true, db)
  | none => (false, db)

/-- `FerroStore::delete`. -/
def delete (db : FerroStore) (key : Str) : Bool × FerroStore :=
  ((lookupA db key).isSome, removeA db key)

/-- `FerroStore::expire`. -/
def expire (db : FerroStore) (now : Nat) (key : Str) (ttl_seconds : Nat) :
    Bool × FerroStore :=
  match lookupA db key with
  | some entry =>
    if entry.is_expired now then (false, removeA db key)
    else (true, insertA db key { entry with expires_at := some (now + ttl_seconds) })
  | none => (false, db)

/-- `FerroStore::ttl` (read lock only; cannot mutate the store). -/
def ttl (db : FerroStore) (now : Nat) (key : Str) : Option Int :=
  match lookupA db key with
  | some entry => entry.ttl_seconds now
  | none => none

/-- `FerroStore::persist`. -/
def persist (db : FerroStore) (now : Nat) (key : Str) : Bool × FerroStore :=
  match lookupA db key with
  | some entry =>
    if entry.is_expired now then (false, removeA db key)
    else
      match entry.expires_at with
      | some _ => (true, insertA db key { entry with expires_at := none })
      | none => (false, db)
  | none => (false, db)

/-- The `push_front` loop of `FerroStore::lpush`. -/
def pushFrontAll (values l : List Str) : List Str :=
  values.foldl (fun acc v => v :: acc) l

/-- `FerroStore::lpush`. -/
def lpush (db : FerroStore) (now : Nat) (key : Str) (values : List Str) :
    Except StoreErr Nat × FerroStore :=
  match lookupA db key with
  | none =>
    let l2 := pushFrontAll values []
    (.ok l2.length, insertA db key ⟨.List l2, none⟩)
  | some entry =>
    if entry.is_expired now then
      let l2 := pushFrontAll values []
      (.ok l2.length, insertA db key ⟨.List l2, none⟩)
    else
      match entry.data with
      | .List l =>
        let l2 := pushFrontAll values l
        (.ok l2.length, insertA db key ⟨.List l2, entry.expires_at⟩)
      | _ => (.error .wrongType, db)

/-- `FerroStore::rpush`. -/
def rpush (db : FerroStore) (now : Nat) (key : Str) (values : List Str) :
    Except StoreErr Nat × FerroStore :=
  match lookupA db key with
  | none =>
    let l2 := [] ++ values
    (.ok l2.length, insertA db key ⟨.List l2, none⟩)
  | some entry =>
    if entry.is_expired now then
      let l2 := [] ++ values
      (.ok l2.length, insertA db key ⟨.List l2, none⟩)
    else
      match entry.data with
      | .List l =>
        let l2 := l ++ values
        (.ok l2.length, insertA db key ⟨.List l2, entry.expires_at⟩)
      | _ => (.error .wrongType, db)

/-- `FerroStore::lpop`: pop up to `count` (default one) values from the
front; the key is removed when the list empties. -/
def lpop (db : FerroStore) (now : Nat) (key : Str) (count : Option Nat) :
    Except StoreErr (List Str) × FerroStore :=
  match lookupA db key with
  | some entry =>
    if entry.is_expired now then (.ok [], removeA db key)
    else
      match entry.data with
      | .List l =>
        let c := count.getD 1
        let popped := l.take c
        let restL := l.drop c
        if restL.isEmpty then (.ok popped, removeA db key)
        else (.ok popped, insertA db key ⟨.List restL, entry.expires_at⟩)
      | _ => (.error .wrongType, db)
  | none => (.ok [], db)

/-- `FerroStore::rpop`. -/
def rpop (db : FerroStore) (now : Nat) (key : Str) (count : Option Nat) :
    Except StoreErr (List Str) × FerroStore :=
  match lookupA db key with
  | some entry =>
    if entry.is_expired now then (.ok [], removeA db key)
    else
      match entry.data with
      | .List l =>
        let c := count.getD 1
        let popped := l.reverse.take c
        let restL := (l.reverse.drop c).reverse
        if restL.isEmpty then (.ok popped, removeA db key)
        else (.ok popped, insertA db key ⟨.List restL, entry.expires_at⟩)
      | _ => (.error .wrongType, db)
  | none => (.ok [], db)

/-- `FerroStore::llen`. -/
def llen (db : FerroStore) (now : Nat) (key : Str) :
    Except StoreErr Nat × FerroStore :=
  match lookupA db key with
  | some entry =>
    if entry.is_expired now then (.ok 0, removeA db key)
    else
      match entry.data with
      | .List l => (.ok l.length, db)
      | _ => (.error .wrongType, db)
  | none => (.ok 0, db)

/-- `FerroStore::lrange` with the signed-index normalization of
src/storage.rs lines 379-418. -/
def lrange (db : FerroStore) (now : Nat) (key : Str) (start stop : Int) :
    Except StoreErr (List Str) × FerroStore :=
  match lookupA db key with
  | some entry =>
    if entry.is_expired now then (.ok [], removeA db key)
    else
      match entry.data with
      | .List l =>
        let len : Int := l.length
        let start2 := if start < 0 then max (len + start) 0 else min start len
        let stop2 := if stop < 0 then max (len + stop) (-1) else min stop (len - 1)
        if start2 > stop2 ∨ start2 ≥ len then (.ok [], db)
        else (.ok ((l.drop start2.toNat).take (stop2 - start2 + 1).toNat), db)
      | _ => (.error .wrongType, db)
  | none => (.ok [], db)

/-- The insertion loop of `FerroStore::sadd`: the resulting set and the
number of members actually added. -/
def saddFold (s members : List Str) : List Str × Nat :=
  members.foldl
    (fun acc m => if m ∈ acc.1 then acc else (acc.1 ++ [m], acc.2 + 1)) (s, 0)

/-- `FerroStore::sadd`. -/
def sadd (db : FerroStore) (now : Nat) (key : Str) (members : List Str) :
    Except StoreErr Nat × FerroStore :=
  match lookupA db key with
  | none =>
    let r := saddFold [] members
    (.ok r.2, insertA db key ⟨.Set r.1, none⟩)
  | some entry =>
    if entry.is_expired now then
      let r := saddFold [] members
      (.ok r.2, insertA db key ⟨.Set r.1, none⟩)
    else
      match entry.data with
      | .Set s =>
        let r := saddFold s members
        (.ok r.2, insertA db key ⟨.Set r.1, entry.expires_at⟩)
      | _ => (.error .wrongType, db)

/-- The removal loop of `FerroStore::srem`. -/
def sremFold (s members : List Str) : List Str × Nat :=
  members.foldl
    (fun acc m => if m ∈ acc.1 then (acc.1.erase m, acc.2 + 1) else acc) (s, 0)

/-- `FerroStore::srem`; the key is removed when the set empties. -/
def srem (db : FerroStore) (now : Nat) (key : Str) (members : List Str) :
    Except StoreErr Nat × FerroStore :=
  match lookupA db key with
  | some entry =>
    if entry.is_expired now then (.ok 0, removeA db key)
    else
      match entry.data with
      | .Set s =>
        let r := sremFold s members
        if r.1.isEmpty then (.ok r.2, removeA db key)
        else (.ok r.2, insertA db key ⟨.Set r.1, entry.expires_at⟩)
      | _ => (.error .wrongType, db)
  | none => (.ok 0, db)

/-- `FerroStore::smembers`. -/
def smembers (db : FerroStore) (now : Nat) (key : Str) :
    Except StoreErr (List Str) × FerroStore :=
  match lookupA db key with
  | some entry =>
    if entry.is_expired now then (.ok [], removeA db key)
    else
      match entry.data with
      | .Set s => (.ok s, db)
      | _ => (.error .wrongType, db)
  | none => (.ok [], db)

/-- `FerroStore::sismember`. -/
def sismember (db : FerroStore) (now : Nat) (key member : Str) :
    Except StoreErr Bool × FerroStore :=
  match lookupA db key with
  | some entry =>
    if entry.is_expired now then (.ok false, removeA db key)
    else
      match entry.data with
      | .Set s => (.ok (decide (member ∈ s)), db)
      | _ => (.error .wrongType, db)
  | none => (.ok false, db)

/-- `FerroStore::scard`. -/
def scard (db : FerroStore) (now : Nat) (key : Str) :
    Except StoreErr Nat × FerroStore :=
  match lookupA db key with
  | some entry =>
    if entry.is_expired now then (.ok 0, removeA db key)
    else
      match entry.data with
      | .Set s => (.ok s.length, db)
      | _ => (.error .wrongType, db)
  | none => (.ok 0, db)

/-- The loop over the keys after the first in `FerroStore::sinter`: a truly
absent key short-circuits to an empty result, an expired entry is skipped,
a wrong-typed entry aborts with an error. -/
def sinterLoop (db : FerroStore) (now : Nat) :
    List Str → List Str → Except StoreErr (List Str)
  | [], acc => .ok acc
  | k :: restKeys, acc =>
    match lookupA db k with
    | some entry =>
      if entry.is_expired now then sinterLoop db now restKeys acc
      else
        match entry.data with
        | .Set s => sinterLoop db now restKeys (acc.filter (fun m => decide (m ∈ s)))
        | _ => .error .wrongType
    | none => .ok []

/-- `FerroStore::sinter` (read lock only; cannot mutate the store). -/
def sinter (db : FerroStore) (now : Nat) (keys : List Str) :
    Except StoreErr (List Str) :=
  match keys with
  | [] => .ok []
  | firstKey :: restKeys =>
    match lookupA db firstKey with
    | some entry =>
      if entry.is_expired now then .ok []
      else
        match entry.data with
        | .Set s => sinterLoop db now restKeys s
        | _ => .error .wrongType
    | none => .ok []

/-- The Rust idiom
`scores.entry(score).or_insert_with(HashSet::new).insert(member)`: fetch or
create the bucket of the score and insert the member into it. -/
def addToBucket (scores : List (Score × List Str)) (score : Score)
    (member : Str) : List (Score × List Str) :=
  match lookupA scores score with
  | some b => btreeInsert scores score (setInsert b member)
  | none => btreeInsert scores score [member]

/-- The Rust idiom
`if let Some(bucket) = scores.get_mut(score) { bucket.remove(&member);
if bucket.is_empty() { scores.remove(score); } }` shared by `zadd` and
`zrem`: take the member out of the bucket of the score, dropping the
bucket when it empties. -/
def removeFromBucket (scores : List (Score × List Str)) (score : Score)
    (member : Str) : List (Score × List Str) :=
  match lookupA scores score with
  | some bucket =>
    let b2 := bucket.erase member
    if b2.isEmpty then removeA scores score else btreeInsert scores score b2
  | none => scores

/-- One score-member insertion of `FerroStore::zadd`: move the member out
of its old bucket (dropping the bucket if it empties), then insert it into
the bucket of the new score and update the member index; returns 1 when
the member is new. -/
def zaddOne (z : SortedSetData) (score : Score) (member : Str) :
    SortedSetData × Nat :=
  match lookupA z.members member with
  | some oldScore =>
    (⟨addToBucket (removeFromBucket z.scores oldScore member) score member,
      insertA z.members member score⟩, 0)
  | none =>
    (⟨addToBucket z.scores score member, insertA z.members member score⟩, 1)

/-- The member loop of `FerroStore::zadd`. -/
def zaddFold (z : SortedSetData) (members : List (Score × Str)) :
    SortedSetData × Nat :=
  members.foldl
    (fun acc sm =>
      let r := zaddOne acc.1 sm.1 sm.2
      (r.1, acc.2 + r.2))
    (z, 0)

/-- `FerroStore::zadd`. -/
def zadd (db : FerroStore) (now : Nat) (key : Str)
    (members : List (Score × Str)) : Except StoreErr Nat × FerroStore :=
  match lookupA db key with
  | none =>
    let r := zaddFold .new members
    (.ok r.2, insertA db key ⟨.SortedSet r.1, none⟩)
  | some entry =>
    if entry.is_expired now then
      let r := zaddFold .new members
      (.ok r.2, insertA db key ⟨.SortedSet r.1, none⟩)
    else
      match entry.data with
      | .SortedSet z =>
        let r := zaddFold z members
        (.ok r.2, insertA db key ⟨.SortedSet r.1, entry.expires_at⟩)
      | _ => (.error .wrongType, db)

/-- One member removal of `FerroStore::zrem`. -/
def zremOne (z : SortedSetData) (member : Str) : SortedSetData × Nat :=
  match lookupA z.members member with
  | some score =>
    (⟨removeFromBucket z.scores score member, removeA z.members member⟩, 1)
  | none => (z, 0)

/-- The member loop of `FerroStore::zrem`. -/
def zremFold (z : SortedSetData) (members : List Str) : SortedSetData × Nat :=
  members.foldl
    (fun acc m =>
      let r := zremOne acc.1 m
      (r.1, acc.2 + r.2))
    (z, 0)

/-- `FerroStore::zrem`; the key is removed when the sorted set empties. -/
def zrem (db : FerroStore) (now : Nat) (key : Str) (members : List Str) :
    Except StoreErr Nat × FerroStore :=
  match lookupA db key with
  | some entry =>
    if entry.is_expired now then (.ok 0, removeA db key)
    else
      match entry.data with
      | .SortedSet z =>
        let r := zremFold z members
        if r.1.is_empty then (.ok r.2, removeA db key)
        else (.ok r.2, insertA db key ⟨.SortedSet r.1, entry.expires_at⟩)
      | _ => (.error .wrongType, db)
  | none => (.ok 0, db)

/-- `FerroStore::zscore` (read lock only; cannot mutate the store). -/
def zscore (db : FerroStore) (now : Nat) (key member : Str) :
    Except StoreErr (Option Score) :=
  match lookupA db key with
  | some entry =>
    if entry.is_expired now then .ok none
    else
      match entry.data with
      | .SortedSet z => .ok (lookupA z.members member)
      | _ => .error .wrongType
  | none => .ok none

/-- `FerroStore::zrange` (read lock only): flatten the score index in
order, normalize the signed indices, slice, and optionally interleave the
scores. -/
def zrange (db : FerroStore) (now : Nat) (key : Str) (start stop : Int)
    (with_scores : Bool) : Except StoreErr (List Str) :=
  match lookupA db key with
  | some entry =>
    if entry.is_expired now then .ok []
    else
      match entry.data with
      | .SortedSet z =>
        let all_members : List (Str × Score) :=
          z.scores.flatMap (fun sb => sb.2.map (fun m => (m, sb.1)))
        let len : Int := all_members.length
        let start2 := if start < 0 then max (len + start) 0 else min start len
        let stop2 := if stop < 0 then max (len + stop) (-1) else min stop (len - 1)
        if start2 > stop2 ∨ start2 ≥ len then .ok []
        else
          .ok (((all_members.drop start2.toNat).take (stop2 - start2 + 1).toNat).flatMap
            (fun ms => if with_scores then [ms.1, intChars ms.2] else [ms.1]))
      | _ => .error .wrongType
  | none => .ok []

/-- The bucket scan of `FerroStore::zrank`: count the members smaller than
the target, return (`Sum.inl`) when the target itself is hit. -/
def zrankBucket : List Str → Str → Nat → Sum Nat Nat
  | [], _, rank => .inr rank
  | m :: rest, member, rank =>
    if strLt m member then zrankBucket rest member (rank + 1)
    else if m = member then .inl rank
    else zrankBucket rest member rank

/-- The outer loop over the score buckets of `FerroStore::zrank`. -/
def zrankLoop (target : Score) (member : Str) :
    List (Score × List Str) → Nat → Option Nat
  | [], rank => some rank
  | (s, b) :: rest, rank =>
    if s < target then zrankLoop target member rest (rank + b.length)
    else if s = target then
      match zrankBucket b member rank with
      | .inl r => some r
      | .inr r => zrankLoop target member rest r
    else zrankLoop target member rest rank

/-- `FerroStore::zrank` (read lock only). -/
def zrank (db : FerroStore) (now : Nat) (key member : Str) :
    Except StoreErr (Option Nat) :=
  match lookupA db key with
  | some entry =>
    if entry.is_expired now then .ok none
    else
      match entry.data with
      | .SortedSet z =>
        match lookupA z.members member with
        | none => .ok none
        | some target => .ok (zrankLoop target member z.scores 0)
      | _ => .error .wrongType
  | none => .ok none

/-- `FerroStore::zcard` (read lock only). -/
def zcard (db : FerroStore) (now : Nat) (key : Str) : Except StoreErr Nat :=
  match lookupA db key with
  | some entry =>
    if entry.is_expired now then .ok 0
    else
      match entry.data with
      | .SortedSet z => .ok z.len
      | _ => .error .wrongType
  | none => .ok 0

/-- `FerroStore::snapshot` (read lock only). -/
def snapshot (db : FerroStore) : List (Str × DataType × Option Nat) :=
  db.map (fun ke => (ke.1, ke.2.data, ke.2.expires_at))

/-- `FerroStore::load_entry`: insert with `expires_at = now + ttl` when a
remaining ttl is given. -/
def load_entry (db : FerroStore) (now : Nat) (key : Str) (data : DataType)
    (ttl : Option Nat) : FerroStore :=
  insertA db key ⟨data, ttl.map (fun d => now + d)⟩

/-- `FerroStore::dbsize` (read lock only). -/
def dbsize (db : FerroStore) : Nat := db.length

end FerroStore

/-! ### C2: behavior of reads on expired entries -/

/-- C2 counterexample: `FerroStore::ttl` observes an entry whose deadline
(5) is at or before `now` (10) yet returns `Some(-2)`, while for an absent
key it returns `None`; it takes only the read lock, so the expired entry is
not removed either.  This refutes the claim that every listed read treats
an expired entry exactly like an absent key and removes it. -/
theorem C2_counterexample :
    (⟨.String ['v'], some 5⟩ : ValueWithExpiry).is_expired 10 = true ∧
    FerroStore.ttl [(['k'], ⟨.String ['v'], some 5⟩)] 10 ['k'] = some (-2) ∧
    FerroStore.ttl ([] : FerroStore) 10 ['k'] = none :=
  ⟨rfl, rfl, rfl⟩

/-- C2 (amended): on an entry whose deadline has passed, the reads
`get`, `exists`, `llen`, `lrange`, `smembers`, `sismember`, `scard` remove
the key and return the absent-key result; the read-lock-only sorted-set
reads `zscore`, `zrange`, `zrank`, `zcard` return the absent-key result but
cannot (and do not) remove the entry; `ttl` neither removes the entry nor
returns the absent-key result `none` — it returns `some (-2)`. -/
theorem C2_expired_reads_amended (db : FerroStore) (now : Nat) (key member : Str)
    (start stop : Int) (ws : Bool) (entry : ValueWithExpiry)
    (h1 : lookupA db key = some entry) (h2 : entry.is_expired now = true) :
    FerroStore.get db now key = (none, removeA db key) ∧
    FerroStore.keyExists db now key = (false, removeA db key) ∧
    FerroStore.llen db now key = (.ok 0, removeA db key) ∧
    FerroStore.lrange db now key start stop = (.ok [], removeA db key) ∧
    FerroStore.smembers db now key = (.ok [], removeA db key) ∧
    FerroStore.sismember db now key member = (.ok false, removeA db key) ∧
    FerroStore.scard db now key = (.ok 0, removeA db key) ∧
    FerroStore.zscore db now key member = .ok none ∧
    FerroStore.zrange db now key start stop ws = .ok [] ∧
    FerroStore.zrank db now key member = .ok none ∧
    FerroStore.zcard db now key = .ok 0 ∧
    FerroStore.ttl db now key = some (-2) := by
  refine ⟨?_, ?_, ?_, ?_, ?_, ?_, ?_, ?_, ?_, ?_, ?_, ?_⟩ <;>
    simp [FerroStore.get, FerroStore.keyExists, FerroStore.llen,
      FerroStore.lrange, FerroStore.smembers, FerroStore.sismember,
      FerroStore.scard, FerroStore.zscore, FerroStore.zrange,
      FerroStore.zrank, FerroStore.zcard, FerroStore.ttl, h1, h2]
  · cases he : entry.expires_at with
    | none => simp [ValueWithExpiry.is_expired, he] at h2
    | some t =>
      simp [ValueWithExpiry.is_expired, he] at h2
      simp [ValueWithExpiry.ttl_seconds, he]
      omega

/-- C2 witness. -/
theorem C2_witness :
    FerroStore.get [(['k'], ⟨.String ['v'], some 5⟩)] 10 ['k'] = (none, []) ∧
    FerroStore.zcard [(['k'], ⟨.String ['v'], some 5⟩)] 10 ['k'] = .ok 0 := by
  have h := C2_expired_reads_amended [(['k'], ⟨.String ['v'], some 5⟩)] 10
    ['k'] ['m'] 0 0 false ⟨.String ['v'], some 5⟩ rfl rfl
  exact ⟨h.1, h.2.2.2.2.2.2.2.2.2.2.1⟩

/-! ### C4: cross-type operations -/

/-- `DataType` discriminators. -/
def DataType.isString : DataType → Bool
  | .String _ => true
  | _ => false

def DataType.isList : DataType → Bool
  | .List _ => true
  | _ => false

def DataType.isSet : DataType → Bool
  | .Set _ => true
  | _ => false

def DataType.isSortedSet : DataType → Bool
  | .SortedSet _ => true
  | _ => false

/-- C4 counterexample: on a live key holding a List, `FerroStore::get`
returns `None` — the absent-key result — leaving the store unchanged (its
`Option<String>` result type has no error at all), and `FerroStore::set`
silently overwrites the List entry; neither yields the wrong-type error the
claim requires of every keyspace operation of a different type. -/
theorem C4_counterexample :
    FerroStore.get [(['k'], ⟨.List [['a']], none⟩)] 0 ['k'] =
      (none, [(['k'], ⟨.List [['a']], none⟩)]) ∧
    FerroStore.set [(['k'], ⟨.List [['a']], none⟩)] ['k'] ['w'] =
      [(['k'], ⟨.String ['w'], none⟩)] :=
  ⟨rfl, rfl⟩

/-- C4 (amended): on an existing, non-expired key, every list operation
fails with the wrong-type error and leaves the store unchanged whenever the
entry holds anything but a List, every set operation whenever it holds
anything but a Set, and every sorted-set operation whenever it holds
anything but a SortedSet; the exceptions are `get`, which on a key of any
non-String type returns the absent result `None` while leaving the entry in
place, and `set`/`set_with_expiry` (SET/SETEX), which overwrite an entry of
any type without error. -/
theorem C4_wrong_type_amended (db : FerroStore) (now : Nat)
    (key member value : Str) (values members : List Str)
    (start stop : Int) (ws : Bool) (count : Option Nat)
    (zmembers : List (Score × Str)) (ttlSecs : Nat)
    (entry : ValueWithExpiry)
    (h1 : lookupA db key = some entry)
    (h2 : entry.is_expired now = false) :
    (entry.data.isList = false →
      FerroStore.llen db now key = (.error .wrongType, db) ∧
      FerroStore.lrange db now key start stop = (.error .wrongType, db) ∧
      FerroStore.lpush db now key values = (.error .wrongType, db) ∧
      FerroStore.rpush db now key values = (.error .wrongType, db) ∧
      FerroStore.lpop db now key count = (.error .wrongType, db) ∧
      FerroStore.rpop db now key count = (.error .wrongType, db)) ∧
    (entry.data.isSet = false →
      FerroStore.sadd db now key members = (.error .wrongType, db) ∧
      FerroStore.srem db now key members = (.error .wrongType, db) ∧
      FerroStore.smembers db now key = (.error .wrongType, db) ∧
      FerroStore.sismember db now key member = (.error .wrongType, db) ∧
      FerroStore.scard db now key = (.error .wrongType, db) ∧
      FerroStore.sinter db now (key :: values) = .error .wrongType) ∧
    (entry.data.isSortedSet = false →
      FerroStore.zadd db now key zmembers = (.error .wrongType, db) ∧
      FerroStore.zrem db now key members = (.error .wrongType, db) ∧
      FerroStore.zscore db now key member = .error .wrongType ∧
      FerroStore.zrange db now key start stop ws = .error .wrongType ∧
      FerroStore.zrank db now key member = .error .wrongType ∧
      FerroStore.zcard db now key = .error .wrongType) ∧
    (entry.data.isString = false →
      FerroStore.get db now key = (none, db)) ∧
    FerroStore.set db key value = insertA db key ⟨.String value, none⟩ ∧
    FerroStore.set_with_expiry db now key value ttlSecs =
      insertA db key ⟨.String value, some (now + ttlSecs)⟩ := by
  refine ⟨fun hd => ?_, fun hd => ?_, fun hd => ?_, fun hd => ?_, rfl, rfl⟩
  · cases hdata : entry.data with
    | List l => exact absurd hd (by rw [hdata]; simp [DataType.isList])
    | String s =>
      refine ⟨?_, ?_, ?_, ?_, ?_, ?_⟩ <;>
        simp [FerroStore.llen, FerroStore.lrange, FerroStore.lpush,
          FerroStore.rpush, FerroStore.lpop, FerroStore.rpop, h1, h2, hdata]
    | Set s =>
      refine ⟨?_, ?_, ?_, ?_, ?_, ?_⟩ <;>
        simp [FerroStore.llen, FerroStore.lrange, FerroStore.lpush,
          FerroStore.rpush, FerroStore.lpop, FerroStore.rpop, h1, h2, hdata]
    | SortedSet z =>
      refine ⟨?_, ?_, ?_, ?_, ?_, ?_⟩ <;>
        simp [FerroStore.llen, FerroStore.lrange, FerroStore.lpush,
          FerroStore.rpush, FerroStore.lpop, FerroStore.rpop, h1, h2, hdata]
  · cases hdata : entry.data with
    | Set s => exact absurd hd (by rw [hdata]; simp [DataType.isSet])
    | String s =>
      refine ⟨?_, ?_, ?_, ?_, ?_, ?_⟩ <;>
        simp [FerroStore.sadd, FerroStore.srem, FerroStore.smembers,
          FerroStore.sismember, FerroStore.scard, FerroStore.sinter,
          h1, h2, hdata]
    | List l =>
      refine ⟨?_, ?_, ?_, ?_, ?_, ?_⟩ <;>
        simp [FerroStore.sadd, FerroStore.srem, FerroStore.smembers,
          FerroStore.sismember, FerroStore.scard, FerroStore.sinter,
          h1, h2, hdata]
    | SortedSet z =>
      refine ⟨?_, ?_, ?_, ?_, ?_, ?_⟩ <;>
        simp [FerroStore.sadd, FerroStore.srem, FerroStore.smembers,
          FerroStore.sismember, FerroStore.scard, FerroStore.sinter,
          h1, h2, hdata]
  · cases hdata : entry.data with
    | SortedSet z => exact absurd hd (by rw [hdata]; simp [DataType.isSortedSet])
    | String s =>
      refine ⟨?_, ?_, ?_, ?_, ?_, ?_⟩ <;>
        simp [FerroStore.zadd, FerroStore.zrem, FerroStore.zscore,
          FerroStore.zrange, FerroStore.zrank, FerroStore.zcard, h1, h2, hdata]
    | List l =>
      refine ⟨?_, ?_, ?_, ?_, ?_, ?_⟩ <;>
        simp [FerroStore.zadd, FerroStore.zrem, FerroStore.zscore,
          FerroStore.zrange, FerroStore.zrank, FerroStore.zcard, h1, h2, hdata]
    | Set s =>
      refine ⟨?_, ?_, ?_, ?_, ?_, ?_⟩ <;>
        simp [FerroStore.zadd, FerroStore.zrem, FerroStore.zscore,
          FerroStore.zrange, FerroStore.zrank, FerroStore.zcard, h1, h2, hdata]
  · cases hdata : entry.data with
    | String s => exact absurd hd (by rw [hdata]; simp [DataType.isString])
    | List l => simp [FerroStore.get, h1, h2, hdata]
    | Set s => simp [FerroStore.get, h1, h2, hdata]
    | SortedSet z => simp [FerroStore.get, h1, h2, hdata]

/-- C4 witness. -/
theorem C4_witness :
    FerroStore.llen [(['k'], ⟨.String ['v'], none⟩)] 0 ['k'] =
      (.error .wrongType, [(['k'], ⟨.String ['v'], none⟩)]) ∧
    FerroStore.zcard [(['k'], ⟨.String ['v'], none⟩)] 0 ['k'] =
      .error .wrongType ∧
    FerroStore.get [(['j'], ⟨.List [['a']], none⟩)] 0 ['j'] =
      (none, [(['j'], ⟨.List [['a']], none⟩)]) ∧
    FerroStore.set_with_expiry [(['k'], ⟨.String ['v'], none⟩)] 5 ['k'] ['w'] 7 =
      insertA [(['k'], ⟨.String ['v'], none⟩)] ['k'] ⟨.String ['w'], some 12⟩ := by
  have hs := C4_wrong_type_amended [(['k'], ⟨.String ['v'], none⟩)] 5 ['k']
    ['m'] ['w'] [] [] 0 0 false none [] 7 ⟨.String ['v'], none⟩ rfl rfl
  have hl := C4_wrong_type_amended [(['j'], ⟨.List [['a']], none⟩)] 0 ['j']
    ['m'] ['w'] [] [] 0 0 false none [] 7 ⟨.List [['a']], none⟩ rfl rfl
  have h1 := (hs.1 (by decide)).1
  have h3 := (hs.2.2.1 (by decide)).2.2.2.2.2
  have h4 := hl.2.2.2.1 (by decide)
  refine ⟨?_, h3, h4, hs.2.2.2.2.2⟩
  have : FerroStore.llen [(['k'], ⟨.String ['v'], none⟩)] 5 ['k'] =
      (.error .wrongType, [(['k'], ⟨.String ['v'], none⟩)]) := h1
  simpa using this

/-! ### C8: lrange index normalization -/

/-- Specification-side slice, written from the spec's words (§4.B): for
length `n`, negative `i` maps to `max(0, n+i)` for the start and
`max(-1, n+i)` for the stop; positive indices clamp to `[0, n]` and
`[0, n-1]`; if `start > stop` or `start ≥ n` the range is empty; otherwise
the result is the inclusive slice from the normalized start to the
normalized stop. -/
def specRangeSlice (l : List Str) (start stop : Int) : List Str :=
  let n : Int := l.length
  let start2 := if start < 0 then max 0 (n + start) else min start n
  let stop2 := if stop < 0 then max (-1) (n + stop) else min stop (n - 1)
  if start2 > stop2 ∨ start2 ≥ n then []
  else (l.take (stop2.toNat + 1)).drop start2.toNat

theorem slice_drop_take_eq (l : List Str) (a b : Int) (h0 : 0 ≤ a) (hab : a ≤ b) :
    (l.drop a.toNat).take (b - a + 1).toNat = (l.take (b.toNat + 1)).drop a.toNat := by
  rw [List.drop_take]
  congr 1
  omega

/-- C8: `FerroStore::lrange` on an existing, non-expired List returns
exactly the slice prescribed by the spec's normalization rules, leaving the
store unchanged. -/
theorem C8_lrange_spec (db : FerroStore) (now : Nat) (key : Str)
    (start stop : Int) (entry : ValueWithExpiry) (l : List Str)
    (h1 : lookupA db key = some entry) (h2 : entry.is_expired now = false)
    (hd : entry.data = .List l) :
    FerroStore.lrange db now key start stop =
      (.ok (specRangeSlice l start stop), db) := by
  simp only [FerroStore.lrange, h1, h2, Bool.false_eq_true, if_false, hd,
    specRangeSlice]
  have hstart : (if start < 0 then max ((l.length : Int) + start) 0
      else min start (l.length : Int)) =
      (if start < 0 then max 0 ((l.length : Int) + start)
      else min start (l.length : Int)) := by
    rcases lt_or_ge start 0 with h | h
    · simp [h, max_comm]
    · simp [not_lt.mpr h]
  have hstop : (if stop < 0 then max ((l.length : Int) + stop) (-1)
      else min stop ((l.length : Int) - 1)) =
      (if stop < 0 then max (-1) ((l.length : Int) + stop)
      else min stop ((l.length : Int) - 1)) := by
    rcases lt_or_ge stop 0 with h | h
    · simp [h, max_comm]
    · simp [not_lt.mpr h]
  rw [hstart, hstop]
  by_cases hcond : (if start < 0 then max 0 ((l.length : Int) + start)
      else min start (l.length : Int)) >
      (if stop < 0 then max (-1) ((l.length : Int) + stop)
      else min stop ((l.length : Int) - 1)) ∨
      (if start < 0 then max 0 ((l.length : Int) + start)
      else min start (l.length : Int)) ≥ (l.length : Int)
  · simp only [hcond, if_true]
  · simp only [hcond, if_false]
    push_neg at hcond
    obtain ⟨hle, hlt⟩ := hcond
    have h0 : 0 ≤ (if start < 0 then max 0 ((l.length : Int) + start)
        else min start (l.length : Int)) := by
      rcases lt_or_ge start 0 with h | h
      · simp [h]
      · simp [not_lt.mpr h]
        exact h
    rw [slice_drop_take_eq l _ _ h0 hle]

/-- C8 witness. -/
theorem C8_witness :
    FerroStore.lrange [(['k'], ⟨.List [['a'], ['b'], ['c'], ['d']], none⟩)]
        0 ['k'] 1 (-2) =
      (.ok (specRangeSlice [['a'], ['b'], ['c'], ['d']] 1 (-2)),
        [(['k'], ⟨.List [['a'], ['b'], ['c'], ['d']], none⟩)]) :=
  C8_lrange_spec _ 0 ['k'] 1 (-2) ⟨.List [['a'], ['b'], ['c'], ['d']], none⟩
    [['a'], ['b'], ['c'], ['d']] rfl rfl rfl

/-! ### C6: sinter on absent and expired keys -/

/-- C6 counterexample: with the first key holding `{a}` and the second key
holding an entry whose deadline (5) is before `now` (10) — i.e. expired —
`sinter` returns `{a}`, not the empty result: an expired subsequent key is
skipped rather than treated as absent. -/
theorem C6_counterexample :
    (⟨.Set [['b']], some 5⟩ : ValueWithExpiry).is_expired 10 = true ∧
    FerroStore.sinter
      [(['k', '1'], ⟨.Set [['a']], none⟩), (['k', '2'], ⟨.Set [['b']], some 5⟩)]
      10 [['k', '1'], ['k', '2']] = .ok [['a']] :=
  ⟨rfl, rfl⟩

theorem sinterLoop_absent (db : FerroStore) (now : Nat) :
    ∀ (keys : List Str) (acc res : List Str) (k : Str),
      FerroStore.sinterLoop db now keys acc = .ok res →
      k ∈ keys → lookupA db k = none → res = [] := by
  intro keys
  induction keys with
  | nil => intro acc res k _ hk; simp at hk
  | cons k0 rest ih =>
    intro acc res k hloop hk habs
    rw [FerroStore.sinterLoop] at hloop
    rcases List.mem_cons.mp hk with hk0 | hkr
    · subst hk0
      simp only [habs] at hloop
      simp at hloop
      exact hloop
    · cases hl : lookupA db k0 with
      | none =>
        simp only [hl] at hloop
        simp at hloop
        exact hloop
      | some entry =>
        simp only [hl] at hloop
        by_cases hexp : entry.is_expired now = true
        · rw [if_pos hexp] at hloop
          exact ih _ res k hloop hkr habs
        · rw [if_neg hexp] at hloop
          cases hdata : entry.data with
          | Set s =>
            simp only [hdata] at hloop
            exact ih _ res k hloop hkr habs
          | String s => simp only [hdata] at hloop; exact absurd hloop (by simp)
          | List l => simp only [hdata] at hloop; exact absurd hloop (by simp)
          | SortedSet z => simp only [hdata] at hloop; exact absurd hloop (by simp)

/-- C6 (amended): `sinter` (which only reads the store and never creates or
promotes a key) returns the empty result when the first key is absent or
expired, and whenever it succeeds while some subsequent key is truly absent
from the map; an expired subsequent key, however, is skipped rather than
treated as absent (see the counterexample). -/
theorem C6_sinter_amended (db : FerroStore) (now : Nat) (firstKey : Str)
    (restKeys : List Str) :
    ((lookupA db firstKey = none ∨
        ∃ e, lookupA db firstKey = some e ∧ e.is_expired now = true) →
      FerroStore.sinter db now (firstKey :: restKeys) = .ok []) ∧
    (∀ res k, FerroStore.sinter db now (firstKey :: restKeys) = .ok res →
      k ∈ restKeys → lookupA db k = none → res = []) := by
  constructor
  · intro h
    rw [FerroStore.sinter]
    rcases h with h | ⟨e, he, hexp⟩
    · simp only [h]
    · simp only [he, hexp, if_true]
  · intro res k hok hk habs
    rw [FerroStore.sinter] at hok
    cases hl : lookupA db firstKey with
    | none =>
      simp only [hl] at hok
      simp at hok
      exact hok
    | some entry =>
      simp only [hl] at hok
      by_cases hexp : entry.is_expired now = true
      · rw [if_pos hexp] at hok
        simp at hok
        exact hok
      · rw [if_neg hexp] at hok
        cases hdata : entry.data with
        | Set s =>
          simp only [hdata] at hok
          exact sinterLoop_absent db now restKeys s res k hok hk habs
        | String s => simp only [hdata] at hok; exact absurd hok (by simp)
        | List l => simp only [hdata] at hok; exact absurd hok (by simp)
        | SortedSet z => simp only [hdata] at hok; exact absurd hok (by simp)

/-- C6 witness. -/
theorem C6_witness :
    FerroStore.sinter [(['k', '2'], ⟨.Set [['b']], none⟩)] 10
      [['k', '1'], ['k', '2']] = .ok [] :=
  (C6_sinter_amended [(['k', '2'], ⟨.Set [['b']], none⟩)] 10 ['k', '1']
    [['k', '2']]).1 (Or.inl rfl)

/-! ## Snapshot codec (src/persistance.rs)

The byte stream is modeled as a stream of tokens, one per primitive
read/write call of the source, with the integer width and endianness
recorded in the constructor (the mixed BE/LE widths of the format are
thereby preserved); `f64` scores carry the `Score` model.  A
length-prefixed string is its `u64be` length token followed by its bytes
token, exactly as `write_string`/`read_string` pair up. -/

inductive Tok where
  | u8 (n : Nat)
  | u64be (n : Nat)
  | u64le (n : Nat)
  | i64be (x : Int)
  | f64le (s : Score)
  | bytes (b : Str)
deriving DecidableEq

/-- The 8-byte magic `FERRODB\0`. -/
def MAGIC : Str := "FERRODB".toList ++ [Char.ofNat 0]

/-- Errors of `load_rdb`; `truncated` stands for the io errors of the
primitive reads (EOF or a frame shape the reader does not expect). -/
inductive LoadErr where
  | invalidMagic
  | unsupportedVersion (v : Nat)
  | unknownType (t : Nat)
  | truncated
deriving DecidableEq

/-- `write_string` from src/persistance.rs. -/
def write_string (s : Str) : List Tok := [.u64be s.length, .bytes s]

/-- `read_string` from src/persistance.rs. -/
def read_string : List Tok → Except LoadErr (Str × List Tok)
  | .u64be len :: .bytes b :: rest =>
    if b.length = len then .ok (b, rest) else .error .truncated
  | _ => .error .truncated

/-- The serialization of one snapshot entry in `save_rdb`. -/
def entryToks (now : Nat) (key : Str) (data : DataType) (expiry : Option Nat) :
    List Tok :=
  write_string key ++
  (match data with
  | .String s => Tok.u8 0 :: write_string s
  | .List l => Tok.u8 1 :: Tok.u64be l.length :: l.flatMap write_string
  | .Set s => Tok.u8 2 :: Tok.u64le s.length :: s.flatMap write_string
  | .SortedSet z =>
    Tok.u8 3 :: Tok.u64le z.len ::
      z.members.flatMap (fun ms => write_string ms.1 ++ [Tok.f64le ms.2])) ++
  (match expiry with
  | some t => [Tok.u8 1, Tok.i64be (if now < t then ((t - now : Nat) : Int) else 0)]
  | none => [Tok.u8 0])

/-- `save_rdb` from src/persistance.rs: magic, version, entry count, then
the entries of the snapshot. -/
def save_rdb (store : FerroStore) (now : Nat) : List Tok :=
  Tok.bytes MAGIC :: Tok.u8 1 :: Tok.u64be (FerroStore.snapshot store).length ::
    (FerroStore.snapshot store).flatMap (fun e => entryToks now e.1 e.2.1 e.2.2)

/-- The `for _ in 0..list_len` string-reading loop of the List arm of
`load_rdb` (items pushed back in order). -/
def readListLoop : Nat → List Tok → List Str → Except LoadErr (List Str × List Tok)
  | 0, toks, acc => .ok (acc, toks)
  | n + 1, toks, acc =>
    match read_string toks with
    | .error e => .error e
    | .ok (item, rest) => readListLoop n rest (acc ++ [item])

/-- The `for _ in 0..set_len` loop of the Set arm of `load_rdb`
(`HashSet::insert` per member). -/
def readSetLoop : Nat → List Tok → List Str → Except LoadErr (List Str × List Tok)
  | 0, toks, acc => .ok (acc, toks)
  | n + 1, toks, acc =>
    match read_string toks with
    | .error e => .error e
    | .ok (member, rest) => readSetLoop n rest (setInsert acc member)

/-- One member insertion of the SortedSet arm of `load_rdb`: insert into
the bucket of the score (creating it if needed) and overwrite the member
index; unlike `zadd`, a duplicate member is NOT removed from its previous
bucket. -/
def loadZEntry (z : SortedSetData) (member : Str) (score : Score) :
    SortedSetData :=
  ⟨FerroStore.addToBucket z.scores score member, insertA z.members member score⟩

/-- The `for _ in 0..zset_len` loop of the SortedSet arm of `load_rdb`. -/
def readZLoop : Nat → List Tok → SortedSetData →
    Except LoadErr (SortedSetData × List Tok)
  | 0, toks, z => .ok (z, toks)
  | n + 1, toks, z =>
    match read_string toks with
    | .error e => .error e
    | .ok (member, rest) =>
      match rest with
      | .f64le score :: rest2 => readZLoop n rest2 (loadZEntry z member score)
      | _ => .error .truncated

/-- The type-tag dispatch of `load_rdb` reconstructing one typed value. -/
def loadData (dataType : Nat) (toks : List Tok) :
    Except LoadErr (DataType × List Tok) :=
  if dataType = 0 then
    match read_string toks with
    | .error e => .error e
    | .ok (value, rest) => .ok (.String value, rest)
  else if dataType = 1 then
    match toks with
    | .u64be n :: rest =>
      match readListLoop n rest [] with
      | .error e => .error e
      | .ok (l, rest2) => .ok (.List l, rest2)
    | _ => .error .truncated
  else if dataType = 2 then
    match toks with
    | .u64le n :: rest =>
      match readSetLoop n rest [] with
      | .error e => .error e
      | .ok (s, rest2) => .ok (.Set s, rest2)
    | _ => .error .truncated
  else if dataType = 3 then
    match toks with
    | .u64le n :: rest =>
      match readZLoop n rest .new with
      | .error e => .error e
      | .ok (z, rest2) => .ok (.SortedSet z, rest2)
    | _ => .error .truncated
  else .error (.unknownType dataType)

/-- The per-entry loop of `load_rdb`: key, type tag, body, expiry flag;
`remaining_secs > 0` becomes a ttl of `remaining_secs`, otherwise no ttl at
all; the entry is loaded through `FerroStore::load_entry`. -/
def loadEntries (now : Nat) : Nat → List Tok → FerroStore →
    Except LoadErr FerroStore
  | 0, _, db => .ok db
  | n + 1, toks, db =>
    match read_string toks with
    | .error e => .error e
    | .ok (key, rest) =>
      match rest with
      | .u8 dataType :: rest2 =>
        match loadData dataType rest2 with
        | .error e => .error e
        | .ok (data, rest3) =>
          match rest3 with
          | .u8 hasExpiry :: rest4 =>
            if hasExpiry = 1 then
              match rest4 with
              | .i64be remaining :: rest5 =>
                let expiry := if remaining > 0 then some remaining.toNat else none
                loadEntries now n rest5 (FerroStore.load_entry db now key data expiry)
              | _ => .error .truncated
            else
              loadEntries now n rest4 (FerroStore.load_entry db now key data none)
          | _ => .error .truncated
      | _ => .error .truncated

/-- `load_rdb` from src/persistance.rs: verify magic and version, then load
`num_keys` entries into the store (trailing tokens are not read). -/
def load_rdb (toks : List Tok) (db : FerroStore) (now : Nat) :
    Except LoadErr FerroStore :=
  match toks with
  | .bytes m :: .u8 version :: .u64be numKeys :: rest =>
    if m ≠ MAGIC then .error .invalidMagic
    else if version ≠ 1 then .error (.unsupportedVersion version)
    else loadEntries now numKeys rest db
  | _ => .error .truncated

/-! ### C3: expiry handling of load_rdb -/

/-- C3: evaluation of `load_rdb` at the divergence point.  An entry with
`has_ttl = 1` and `remaining_seconds = 7 > 0` is restored with deadline
`now + 7` (as the claim states), but an entry with `remaining_seconds = 0`
is NOT dropped: it is inserted with no expiration at all, i.e. the key is
present and immortal after the load. -/
theorem C3_load_zero_ttl :
    load_rdb (Tok.bytes MAGIC :: Tok.u8 1 :: Tok.u64be 1 ::
        (write_string ['k'] ++ [Tok.u8 0] ++ write_string ['v'] ++
          [Tok.u8 1, Tok.i64be 7])) [] 50 =
      .ok [(['k'], ⟨.String ['v'], some 57⟩)] ∧
    load_rdb (Tok.bytes MAGIC :: Tok.u8 1 :: Tok.u64be 1 ::
        (write_string ['k'] ++ [Tok.u8 0] ++ write_string ['v'] ++
          [Tok.u8 1, Tok.i64be 0])) [] 50 =
      .ok [(['k'], ⟨.String ['v'], none⟩)] ∧
    FerroStore.ttl [(['k'], ⟨.String ['v'], none⟩)] 1000000 ['k'] = some (-1) :=
  ⟨rfl, rfl, rfl⟩

/-! ### C5: snapshot round-trip -/

/-- Well-formedness of a stored value as produced by the store's own
operations: the set-like containers hold no duplicate member. -/
def dataNoDup : DataType → Prop
  | .String _ => True
  | .List _ => True
  | .Set s => s.Nodup
  | .SortedSet z => (z.members.map Prod.fst).Nodup

instance : DecidablePred dataNoDup := by
  intro d
  cases d <;> simp [dataNoDup] <;> infer_instance

/-- Well-formed keyspace: distinct keys, well-formed container values. -/
def storeWF (db : FerroStore) : Prop :=
  (db.map Prod.fst).Nodup ∧ ∀ e ∈ db, dataNoDup e.2.data

/-- Value equivalence in the sense of the claim: Lists with their order,
Sets by membership, SortedSets by their member-to-score mapping. -/
def DataEquiv : DataType → DataType → Prop
  | .String a, .String b => a = b
  | .List a, .List b => a = b
  | .Set a, .Set b => ∀ m, m ∈ a ↔ m ∈ b
  | .SortedSet za, .SortedSet zb =>
    ∀ m, lookupA za.members m = lookupA zb.members m
  | _, _ => False

/-- The typed value as `load_rdb` reconstructs it from the serialized form
of `d`. -/
def reloadData : DataType → DataType
  | .String s => .String s
  | .List l => .List l
  | .Set s => .Set (s.foldl setInsert [])
  | .SortedSet z =>
    .SortedSet (z.members.foldl (fun z2 p => loadZEntry z2 p.1 p.2) .new)

/-- The store as `load_rdb` reconstructs it from a no-ttl snapshot. -/
def reloadStore (db : FerroStore) : FerroStore :=
  db.map (fun e => (e.1, ⟨reloadData e.2.data, none⟩))

theorem read_write_string (s : Str) (rest : List Tok) :
    read_string (write_string s ++ rest) = .ok (s, rest) := by
  simp [write_string, read_string]

theorem readListLoop_spec : ∀ (l : List Str) (acc : List Str) (rest : List Tok),
    readListLoop l.length (l.flatMap write_string ++ rest) acc =
      .ok (acc ++ l, rest) := by
  intro l
  induction l with
  | nil => intro acc rest; simp [readListLoop]
  | cons x xs ih =>
    intro acc rest
    rw [List.length_cons, List.flatMap_cons, List.append_assoc, readListLoop,
      read_write_string]
    simp [ih]

theorem readSetLoop_spec : ∀ (l : List Str) (acc : List Str) (rest : List Tok),
    readSetLoop l.length (l.flatMap write_string ++ rest) acc =
      .ok (l.foldl setInsert acc, rest) := by
  intro l
  induction l with
  | nil => intro acc rest; simp [readSetLoop]
  | cons x xs ih =>
    intro acc rest
    rw [List.length_cons, List.flatMap_cons, List.append_assoc, readSetLoop,
      read_write_string]
    simp [ih]

theorem readZLoop_spec : ∀ (pairs : List (Str × Score)) (z : SortedSetData)
    (rest : List Tok),
    readZLoop pairs.length
      (pairs.flatMap (fun ms => write_string ms.1 ++ [Tok.f64le ms.2]) ++ rest)
      z = .ok (pairs.foldl (fun z2 p => loadZEntry z2 p.1 p.2) z, rest) := by
  intro pairs
  induction pairs with
  | nil => intro z rest; simp [readZLoop]
  | cons p ps ih =>
    intro z rest
    rw [List.length_cons, List.flatMap_cons, List.append_assoc,
      List.append_assoc, readZLoop, read_write_string]
    simp only [List.singleton_append]
    simp [ih]

theorem insertA_append_of_not_mem {β : Type} : ∀ (l : List (Str × β)) (k : Str)
    (v : β), k ∉ l.map Prod.fst → insertA l k v = l ++ [(k, v)] := by
  intro l
  induction l with
  | nil => intro k v _; rfl
  | cons p rest ih =>
    intro k v h
    obtain ⟨k0, v0⟩ := p
    simp only [List.map_cons, List.mem_cons, not_or] at h
    rw [insertA, if_neg (fun he => h.1 he.symm), ih k v h.2, List.cons_append]

theorem foldl_setInsert_of_nodup : ∀ (l acc : List Str), l.Nodup →
    (∀ m ∈ l, m ∉ acc) → l.foldl setInsert acc = acc ++ l := by
  intro l
  induction l with
  | nil => intro acc _ _; simp
  | cons x xs ih =>
    intro acc hnd hfr
    rw [List.foldl_cons]
    have hx : x ∉ acc := hfr x (by simp)
    rw [show setInsert acc x = acc ++ [x] by simp [setInsert, hx]]
    rw [List.nodup_cons] at hnd
    rw [ih (acc ++ [x]) hnd.2]
    · simp
    · intro m hm hcon
      rcases List.mem_append.mp hcon with hacc | hsing
      · exact hfr m (by simp [hm]) hacc
      · rw [List.mem_singleton] at hsing
        subst hsing
        exact hnd.1 hm

theorem loadZ_members : ∀ (pairs : List (Str × Score)) (z : SortedSetData),
    (pairs.map Prod.fst).Nodup →
    (∀ m ∈ pairs.map Prod.fst, m ∉ z.members.map Prod.fst) →
    (pairs.foldl (fun z2 p => loadZEntry z2 p.1 p.2) z).members =
      z.members ++ pairs := by
  intro pairs
  induction pairs with
  | nil => intro z _ _; simp
  | cons p ps ih =>
    intro z hnd hfr
    obtain ⟨m0, s0⟩ := p
    simp only [List.map_cons, List.nodup_cons] at hnd
    have hp : m0 ∉ z.members.map Prod.fst := hfr m0 (by simp)
    have hmem1 : (loadZEntry z m0 s0).members = z.members ++ [(m0, s0)] := by
      rw [loadZEntry]
      exact insertA_append_of_not_mem _ _ _ hp
    rw [List.foldl_cons]
    rw [ih (loadZEntry z m0 s0) hnd.2]
    · rw [hmem1, List.append_assoc]
      rfl
    · intro m hm hcon
      rw [hmem1, List.map_append] at hcon
      rcases List.mem_append.mp hcon with hz | hm0
      · exact hfr m (by rw [List.map_cons]; exact List.mem_cons.mpr (Or.inr hm)) hz
      · simp at hm0
        subst hm0
        exact hnd.1 hm

theorem loadEntry_step (now now2 : Nat) (k : Str) (d : DataType) (n : Nat)
    (rest : List Tok) (db : FerroStore) :
    loadEntries now2 (n + 1) (entryToks now k d none ++ rest) db =
      loadEntries now2 n rest
        (FerroStore.load_entry db now2 k (reloadData d) none) := by
  cases d with
  | String s =>
    rw [entryToks]
    simp only [List.append_assoc, List.cons_append]
    rw [loadEntries, read_write_string]
    simp [loadData, read_write_string, reloadData]
  | List l =>
    rw [entryToks]
    simp only [List.append_assoc, List.cons_append]
    rw [loadEntries, read_write_string]
    simp [loadData, readListLoop_spec, reloadData]
  | Set s =>
    rw [entryToks]
    simp only [List.append_assoc, List.cons_append]
    rw [loadEntries, read_write_string]
    simp [loadData, readSetLoop_spec, reloadData]
  | SortedSet z =>
    rw [entryToks]
    simp only [List.append_assoc, List.cons_append]
    rw [loadEntries, read_write_string]
    simp [loadData, SortedSetData.len, readZLoop_spec, reloadData]

theorem loadEntries_spec (now now2 : Nat) :
    ∀ (entries : List (Str × ValueWithExpiry)) (db : FerroStore)
      (tail : List Tok),
    (∀ e ∈ entries, e.2.expires_at = none) →
    (∀ k ∈ entries.map Prod.fst, k ∉ db.map Prod.fst) →
    (entries.map Prod.fst).Nodup →
    loadEntries now2 entries.length
      (entries.flatMap (fun e => entryToks now e.1 e.2.data e.2.expires_at) ++
        tail) db =
      .ok (db ++ entries.map (fun e => (e.1, ⟨reloadData e.2.data, none⟩))) := by
  intro entries
  induction entries with
  | nil => intro db tail _ _ _; simp [loadEntries]
  | cons e rest ih =>
    intro db tail httl hfr hnd
    obtain ⟨k, v⟩ := e
    have hv : v.expires_at = none := httl (k, v) (List.mem_cons_self _ _)
    rw [List.length_cons, List.flatMap_cons, List.append_assoc]
    simp only [hv]
    rw [loadEntry_step]
    have hins : FerroStore.load_entry db now2 k (reloadData v.data) none =
        db ++ [(k, ⟨reloadData v.data, none⟩)] := by
      rw [FerroStore.load_entry]
      exact insertA_append_of_not_mem _ _ _
        (hfr k (by rw [List.map_cons]; exact List.mem_cons.mpr (Or.inl rfl)))
    rw [hins]
    rw [List.map_cons, List.nodup_cons] at hnd
    have hrest_ttl : ∀ e' ∈ rest, e'.2.expires_at = none :=
      fun e' he' => httl e' (List.mem_cons.mpr (Or.inr he'))
    have hfr2 : ∀ k' ∈ List.map Prod.fst rest,
        k' ∉ List.map Prod.fst (db ++ [(k, ⟨reloadData v.data, none⟩)]) := by
      intro k' hk' hcon
      rw [List.map_append] at hcon
      rcases List.mem_append.mp hcon with hdb | hone
      · exact hfr k' (by rw [List.map_cons]; exact List.mem_cons.mpr (Or.inr hk')) hdb
      · simp only [List.map_cons, List.map_nil, List.mem_singleton] at hone
        subst hone
        exact hnd.1 hk'
    rw [ih (db ++ [(k, (⟨reloadData v.data, none⟩ : ValueWithExpiry))]) tail
      hrest_ttl hfr2 hnd.2]
    simp

theorem flatMap_map_local {α β γ : Type} (f : α → β) (g : β → List γ) :
    ∀ l : List α, (l.map f).flatMap g = l.flatMap (fun x => g (f x)) := by
  intro l
  induction l with
  | nil => rfl
  | cons x xs ih => simp [ih]

theorem lookupA_mem {α β : Type} [DecidableEq α] :
    ∀ (l : List (α × β)) (k : α) (v : β), lookupA l k = some v → (k, v) ∈ l := by
  intro l
  induction l with
  | nil => intro k v h; simp [lookupA] at h
  | cons p rest ih =>
    intro k v h
    obtain ⟨k0, v0⟩ := p
    rw [lookupA] at h
    by_cases hk : k0 = k
    · rw [if_pos hk] at h
      injection h with h
      subst hk h
      simp
    · rw [if_neg hk] at h
      exact List.mem_cons.mpr (Or.inr (ih k v h))

theorem lookupA_reloadStore : ∀ (l : FerroStore) (k : Str),
    lookupA (reloadStore l) k =
      (lookupA l k).map (fun v => ⟨reloadData v.data, none⟩) := by
  intro l
  induction l with
  | nil => intro k; rfl
  | cons p rest ih =>
    intro k
    obtain ⟨k0, v0⟩ := p
    rw [reloadStore, List.map_cons]
    rw [lookupA, lookupA]
    by_cases hk : k0 = k
    · simp [hk]
    · rw [if_neg hk, if_neg hk]
      exact ih k

theorem reloadData_equiv (d : DataType) (h : dataNoDup d) :
    DataEquiv (reloadData d) d := by
  cases d with
  | String s => simp [reloadData, DataEquiv]
  | List l => simp [reloadData, DataEquiv]
  | Set s =>
    rw [reloadData, DataEquiv]
    rw [foldl_setInsert_of_nodup s [] h (by simp)]
    simp
  | SortedSet z =>
    rw [reloadData, DataEquiv]
    intro m
    rw [loadZ_members z.members .new h (by simp [SortedSetData.new])]
    rfl

/-- C5: saving a keyspace with no expiration deadlines and loading the
file into an empty store reproduces the keyspace: same keys in the same
order, every restored entry without expiry, Strings and Lists equal,
Sets with the same membership, SortedSets with the same member-score
mapping. -/
theorem C5_roundtrip (db : FerroStore) (now now2 : Nat)
    (hwf : storeWF db) (httl : ∀ e ∈ db, e.2.expires_at = none) :
    load_rdb (save_rdb db now) [] now2 = .ok (reloadStore db) ∧
    (reloadStore db).map Prod.fst = db.map Prod.fst ∧
    (∀ e2 ∈ reloadStore db, e2.2.expires_at = none) ∧
    (∀ k e, lookupA db k = some e →
      ∃ e2, lookupA (reloadStore db) k = some e2 ∧ DataEquiv e2.data e.data) := by
  refine ⟨?_, ?_, ?_, ?_⟩
  · rw [save_rdb, load_rdb]
    rw [if_neg (by simp), if_neg (by simp)]
    rw [FerroStore.snapshot, flatMap_map_local, List.length_map]
    have hsp := loadEntries_spec now now2 db [] [] httl
      (fun k hk hc => by simp only [List.map_nil] at hc; exact absurd hc (List.not_mem_nil k))
      hwf.1
    rw [List.append_nil] at hsp
    rw [hsp]
    rw [reloadStore]
    simp
  · rw [reloadStore, List.map_map]
    rfl
  · intro e2 he2
    rw [reloadStore] at he2
    obtain ⟨e, _, he⟩ := List.mem_map.mp he2
    rw [← he]
  · intro k e hke
    refine ⟨⟨reloadData e.data, none⟩, ?_, ?_⟩
    · rw [lookupA_reloadStore, hke]
      rfl
    · exact reloadData_equiv e.data (hwf.2 (k, e) (lookupA_mem db k e hke))

/-- C5 witness. -/
theorem C5_witness :
    load_rdb (save_rdb
      [(['k'], ⟨.String ['v'], none⟩),
       (['l'], ⟨.List [['a'], ['b']], none⟩),
       (['s'], ⟨.Set [['x'], ['y']], none⟩),
       (['z'], ⟨.SortedSet ⟨[(3, [['m']])], [(['m'], 3)]⟩, none⟩)] 7) [] 11 =
    .ok (reloadStore
      [(['k'], ⟨.String ['v'], none⟩),
       (['l'], ⟨.List [['a'], ['b']], none⟩),
       (['s'], ⟨.Set [['x'], ['y']], none⟩),
       (['z'], ⟨.SortedSet ⟨[(3, [['m']])], [(['m'], 3)]⟩, none⟩)]) :=
  (C5_roundtrip _ 7 11 ⟨by decide, by decide⟩ (by decide)).1

/-! ### C7: sorted-set index consistency -/

theorem lookupA_insertA {α β : Type} [DecidableEq α] :
    ∀ (l : List (α × β)) (k : α) (v : β) (t : α),
    lookupA (insertA l k v) t = if k = t then some v else lookupA l t := by
  intro l k v
  induction l with
  | nil => intro t; rfl
  | cons p rest ih =>
    intro t
    obtain ⟨k0, v0⟩ := p
    by_cases hk : k0 = k
    · subst hk
      by_cases ht : k0 = t
      · subst ht
        simp [insertA, lookupA]
      · simp [insertA, lookupA, ht]
    · by_cases ht : k0 = t
      · subst ht
        have hkt : ¬ k = k0 := fun he => hk he.symm
        simp [insertA, lookupA, hk, hkt]
      · simp [insertA, lookupA, hk, ht, ih t]

theorem lookupA_removeA_ne {α β : Type} [DecidableEq α] :
    ∀ (l : List (α × β)) (k t : α), k ≠ t →
    lookupA (removeA l k) t = lookupA l t := by
  intro l k t hkt
  induction l with
  | nil => rfl
  | cons p rest ih =>
    obtain ⟨k0, v0⟩ := p
    rw [removeA]
    by_cases hk : k0 = k
    · subst hk
      rw [if_pos rfl, lookupA, if_neg hkt]
    · rw [if_neg hk, lookupA, lookupA]
      by_cases ht : k0 = t
      · rw [if_pos ht, if_pos ht]
      · rw [if_neg ht, if_neg ht, ih]

theorem lookupA_removeA_self {α β : Type} [DecidableEq α] :
    ∀ (l : List (α × β)) (k : α), (l.map Prod.fst).Nodup →
    lookupA (removeA l k) k = none := by
  intro l k
  induction l with
  | nil => intro _; rfl
  | cons p rest ih =>
    intro hnd
    obtain ⟨k0, v0⟩ := p
    rw [List.map_cons, List.nodup_cons] at hnd
    rw [removeA]
    by_cases hk : k0 = k
    · subst hk
      rw [if_pos rfl]
      cases hl : lookupA rest k0 with
      | none => rfl
      | some v =>
        exfalso
        exact hnd.1 (List.mem_map.mpr ⟨(k0, v), lookupA_mem rest k0 v hl, rfl⟩)
    · rw [if_neg hk, lookupA, if_neg hk]
      exact ih hnd.2

theorem lookupA_btreeInsert {β : Type} :
    ∀ (l : List (Score × β)) (k : Score) (v : β) (t : Score),
    lookupA (btreeInsert l k v) t = if k = t then some v else lookupA l t := by
  intro l k v
  induction l with
  | nil => intro t; rfl
  | cons p rest ih =>
    intro t
    obtain ⟨k0, v0⟩ := p
    by_cases hlt : k < k0
    · by_cases ht : k = t
      · subst ht
        simp [btreeInsert, lookupA, hlt]
      · simp [btreeInsert, lookupA, hlt, ht]
    · by_cases heq : k = k0
      · subst heq
        by_cases ht : k = t
        · subst ht
          simp [btreeInsert, lookupA, hlt]
        · simp [btreeInsert, lookupA, hlt, ht]
      · by_cases ht : k0 = t
        · subst ht
          have hkt : ¬ k = k0 := heq
          simp [btreeInsert, lookupA, hlt, heq, hkt]
        · simp [btreeInsert, lookupA, hlt, heq, ht, ih t]

theorem lookupA_of_mem_nodup {α β : Type} [DecidableEq α] :
    ∀ (l : List (α × β)) (k : α) (v : β), (l.map Prod.fst).Nodup →
    (k, v) ∈ l → lookupA l k = some v := by
  intro l
  induction l with
  | nil => intro k v _ h; simp at h
  | cons p rest ih =>
    intro k v hnd hm
    obtain ⟨k0, v0⟩ := p
    rw [List.map_cons, List.nodup_cons] at hnd
    rcases List.mem_cons.mp hm with he | hr
    · injection he with h1 h2
      subst h1 h2
      rw [lookupA, if_pos rfl]
    · rw [lookupA]
      by_cases hk : k0 = k
      · subst hk
        exfalso
        exact hnd.1 (List.mem_map.mpr ⟨(k0, v), hr, rfl⟩)
      · rw [if_neg hk]
        exact ih k v hnd.2 hr

/-- Members of a `btreeInsert` result. -/
theorem mem_btreeInsert {β : Type} :
    ∀ (l : List (Score × β)) (k : Score) (v : β) (x : Score × β),
    x ∈ btreeInsert l k v → x ∈ l ∨ x = (k, v) := by
  intro l k v
  induction l with
  | nil =>
    intro x hx
    rw [btreeInsert] at hx
    exact Or.inr (List.mem_singleton.mp hx)
  | cons p rest ih =>
    intro x hx
    obtain ⟨k0, v0⟩ := p
    rw [btreeInsert] at hx
    by_cases hlt : k < k0
    · rw [if_pos hlt] at hx
      rcases List.mem_cons.mp hx with he | hx2
      · exact Or.inr he
      · exact Or.inl hx2
    · rw [if_neg hlt] at hx
      by_cases heq : k = k0
      · rw [if_pos heq] at hx
        rcases List.mem_cons.mp hx with he | hx2
        · exact Or.inr he
        · exact Or.inl (List.mem_cons.mpr (Or.inr hx2))
      · rw [if_neg heq] at hx
        rcases List.mem_cons.mp hx with he | hx2
        · exact Or.inl (List.mem_cons.mpr (Or.inl he))
        · rcases ih x hx2 with h | h
          · exact Or.inl (List.mem_cons.mpr (Or.inr h))
          · exact Or.inr h

/-- Strictly-ascending key order of the score index (the `BTreeMap`
invariant); it implies distinct keys. -/
def scoresSorted {β : Type} (l : List (Score × β)) : Prop :=
  l.Pairwise (fun a b => a.1 < b.1)

theorem scoresSorted_keys_nodup {β : Type} (l : List (Score × β))
    (h : scoresSorted l) : (l.map Prod.fst).Nodup := by
  have h2 : (l.map Prod.fst).Pairwise (fun a b => a ≠ b) := by
    rw [List.pairwise_map]
    exact h.imp (fun hab => ne_of_lt hab)
  exact h2

theorem removeA_sublist {α β : Type} [DecidableEq α] :
    ∀ (l : List (α × β)) (k : α), (removeA l k).Sublist l := by
  intro l k
  induction l with
  | nil => exact List.Sublist.refl _
  | cons p rest ih =>
    obtain ⟨k0, v0⟩ := p
    rw [removeA]
    by_cases hk : k0 = k
    · rw [if_pos hk]
      exact List.sublist_cons_self _ _
    · rw [if_neg hk]
      exact ih.cons₂ _

theorem scoresSorted_removeA {β : Type} (l : List (Score × β)) (k : Score)
    (h : scoresSorted l) : scoresSorted (removeA l k) :=
  List.Pairwise.sublist (removeA_sublist l k) h

theorem scoresSorted_btreeInsert {β : Type} :
    ∀ (l : List (Score × β)) (k : Score) (v : β), scoresSorted l →
    scoresSorted (btreeInsert l k v) := by
  intro l k v
  induction l with
  | nil => intro _; simp [btreeInsert, scoresSorted]
  | cons p rest ih =>
    intro h
    obtain ⟨k0, v0⟩ := p
    rw [scoresSorted, List.pairwise_cons] at h
    obtain ⟨h1, h2⟩ := h
    rw [btreeInsert]
    by_cases hlt : k < k0
    · rw [if_pos hlt, scoresSorted, List.pairwise_cons]
      refine ⟨?_, ?_⟩
      · intro x hx
        rcases List.mem_cons.mp hx with he | hx2
        · rw [he]
          exact hlt
        · exact lt_trans hlt (h1 x hx2)
      · rw [List.pairwise_cons]
        exact ⟨h1, h2⟩
    · rw [if_neg hlt]
      by_cases heq : k = k0
      · rw [if_pos heq, scoresSorted, List.pairwise_cons]
        refine ⟨fun x hx => ?_, h2⟩
        rw [heq]
        exact h1 x hx
      · rw [if_neg heq, scoresSorted, List.pairwise_cons]
        refine ⟨?_, ih h2⟩
        intro x hx
        rcases mem_btreeInsert rest k v x hx with hr | hkv
        · exact h1 x hr
        · rw [hkv]
          exact lt_of_le_of_ne (not_lt.mp hlt) (fun he => heq he.symm)

theorem setInsert_nodup (b : List Str) (m : Str) (h : b.Nodup) :
    (setInsert b m).Nodup := by
  rw [setInsert]
  by_cases hm : m ∈ b
  · rw [if_pos hm]
    exact h
  · rw [if_neg hm, List.nodup_append]
    exact ⟨h, List.nodup_singleton m, fun a ha hs => hm ((List.mem_singleton.mp hs) ▸ ha)⟩

theorem mem_setInsert (b : List Str) (m m2 : Str) :
    m2 ∈ setInsert b m ↔ m2 ∈ b ∨ m2 = m := by
  rw [setInsert]
  by_cases hm : m ∈ b
  · rw [if_pos hm]
    constructor
    · exact Or.inl
    · rintro (h | h)
      · exact h
      · exact h ▸ hm
  · rw [if_neg hm, List.mem_append, List.mem_singleton]

theorem setInsert_ne_nil (b : List Str) (m : Str) : setInsert b m ≠ [] :=
  List.ne_nil_of_mem ((mem_setInsert b m m).mpr (Or.inr rfl))

instance scoresSortedDec {β : Type} (l : List (Score × β)) :
    Decidable (scoresSorted l) := by
  unfold scoresSorted
  infer_instance

/-- Executable form of the claimed sorted-set invariant: every member-index
pair appears in the bucket of its score, every bucket is nonempty, and
every bucket member maps back to the bucket's score. -/
def SortedSetData.invB (z : SortedSetData) : Bool :=
  z.members.all (fun ms =>
    match lookupA z.scores ms.2 with
    | some b => decide (ms.1 ∈ b)
    | none => false) &&
  z.scores.all (fun sb =>
    !sb.2.isEmpty && sb.2.all (fun m => lookupA z.members m == some sb.1))

/-- Executable well-formedness of the container representation: distinct
member keys (`HashMap`), strictly sorted score keys (`BTreeMap`),
duplicate-free buckets (`HashSet`). -/
def SortedSetData.wfB (z : SortedSetData) : Bool :=
  decide ((z.members.map Prod.fst).Nodup) && decide (scoresSorted z.scores) &&
  z.scores.all (fun sb => decide sb.2.Nodup)

/-- Lookup-level form of `wfB`, convenient in proofs. -/
def SortedSetData.WfP (z : SortedSetData) : Prop :=
  (z.members.map Prod.fst).Nodup ∧ scoresSorted z.scores ∧
  (∀ s b, lookupA z.scores s = some b → b.Nodup)

/-- Lookup-level form of `invB`. -/
def SortedSetData.InvP (z : SortedSetData) : Prop :=
  (∀ m s, lookupA z.members m = some s →
    ∃ b, lookupA z.scores s = some b ∧ m ∈ b) ∧
  (∀ s b, lookupA z.scores s = some b →
    b ≠ [] ∧ ∀ m ∈ b, lookupA z.members m = some s)

theorem lookupA_none_not_mem_keys {α β : Type} [DecidableEq α] :
    ∀ (l : List (α × β)) (k : α), lookupA l k = none → k ∉ l.map Prod.fst := by
  intro l k
  induction l with
  | nil => intro _ h; simp at h
  | cons p rest ih =>
    intro hl hk
    obtain ⟨k0, v0⟩ := p
    rw [lookupA] at hl
    by_cases he : k0 = k
    · rw [if_pos he] at hl
      exact Option.noConfusion hl
    · rw [if_neg he] at hl
      rw [List.map_cons, List.mem_cons] at hk
      rcases hk with h | h
      · exact he h.symm
      · exact ih hl h

theorem keys_insertA_subset {α β : Type} [DecidableEq α] :
    ∀ (l : List (α × β)) (k : α) (v : β) (x : α),
    x ∈ (insertA l k v).map Prod.fst → x ∈ l.map Prod.fst ∨ x = k := by
  intro l k v
  induction l with
  | nil =>
    intro x hx
    simp [insertA] at hx
    exact Or.inr hx
  | cons p rest ih =>
    intro x hx
    obtain ⟨k0, v0⟩ := p
    rw [insertA] at hx
    by_cases he : k0 = k
    · rw [if_pos he] at hx
      rw [List.map_cons, List.mem_cons] at hx
      rcases hx with h | h
      · exact Or.inr h
      · exact Or.inl (by rw [List.map_cons, List.mem_cons]; exact Or.inr h)
    · rw [if_neg he] at hx
      rw [List.map_cons, List.mem_cons] at hx
      rcases hx with h | h
      · exact Or.inl (by rw [List.map_cons, List.mem_cons]; exact Or.inl h)
      · rcases ih x h with h2 | h2
        · exact Or.inl (by rw [List.map_cons, List.mem_cons]; exact Or.inr h2)
        · exact Or.inr h2

theorem insertA_keys_nodup {α β : Type} [DecidableEq α] :
    ∀ (l : List (α × β)) (k : α) (v : β), (l.map Prod.fst).Nodup →
    ((insertA l k v).map Prod.fst).Nodup := by
  intro l k v
  induction l with
  | nil => intro _; simp [insertA]
  | cons p rest ih =>
    intro hnd
    obtain ⟨k0, v0⟩ := p
    rw [List.map_cons, List.nodup_cons] at hnd
    rw [insertA]
    by_cases he : k0 = k
    · rw [if_pos he, List.map_cons, List.nodup_cons]
      exact ⟨he ▸ hnd.1, hnd.2⟩
    · rw [if_neg he, List.map_cons, List.nodup_cons]
      refine ⟨?_, ih hnd.2⟩
      intro hk0
      rcases keys_insertA_subset rest k v k0 hk0 with h | h
      · exact hnd.1 h
      · exact he h

theorem removeA_keys_nodup {α β : Type} [DecidableEq α]
    (l : List (α × β)) (k : α) (hnd : (l.map Prod.fst).Nodup) :
    ((removeA l k).map Prod.fst).Nodup :=
  List.Nodup.sublist (List.Sublist.map Prod.fst (removeA_sublist l k)) hnd

theorem lookupA_addToBucket (S : List (Score × List Str)) (s : Score)
    (m : Str) (t : Score) :
    lookupA (FerroStore.addToBucket S s m) t =
      if s = t then
        some (match lookupA S s with
          | some b => setInsert b m
          | none => [m])
      else lookupA S t := by
  rw [FerroStore.addToBucket]
  cases h : lookupA S s <;> simp [lookupA_btreeInsert, h]

theorem addToBucket_sorted (S : List (Score × List Str)) (s : Score)
    (m : Str) (h : scoresSorted S) :
    scoresSorted (FerroStore.addToBucket S s m) := by
  rw [FerroStore.addToBucket]
  cases lookupA S s <;> exact scoresSorted_btreeInsert _ _ _ h

theorem wfB_iff_WfP (z : SortedSetData) : z.wfB = true ↔ z.WfP := by
  rw [SortedSetData.wfB, SortedSetData.WfP]
  simp only [Bool.and_eq_true, decide_eq_true_eq, List.all_eq_true]
  constructor
  · rintro ⟨⟨h1, h2⟩, h3⟩
    refine ⟨h1, h2, ?_⟩
    intro s b hb
    exact h3 (s, b) (lookupA_mem _ _ _ hb)
  · rintro ⟨h1, h2, h3⟩
    refine ⟨⟨h1, h2⟩, ?_⟩
    intro sb hsb
    exact h3 sb.1 sb.2
      (lookupA_of_mem_nodup _ _ _ (scoresSorted_keys_nodup _ h2) (by simpa using hsb))

theorem invB_iff_InvP (z : SortedSetData) (hw : z.WfP) :
    z.invB = true ↔ z.InvP := by
  obtain ⟨hW1, hW2, _⟩ := hw
  rw [SortedSetData.invB, SortedSetData.InvP]
  simp only [Bool.and_eq_true, List.all_eq_true]
  constructor
  · rintro ⟨h1, h2⟩
    constructor
    · intro m s hms
      have := h1 (m, s) (lookupA_mem _ _ _ hms)
      cases hb : lookupA z.scores s with
      | none => rw [hb] at this; exact absurd this (by simp)
      | some b =>
        rw [hb] at this
        exact ⟨b, rfl, of_decide_eq_true this⟩
    · intro s b hb
      have := h2 (s, b) (lookupA_mem _ _ _ hb)
      simp only [Bool.and_eq_true, Bool.not_eq_true', List.all_eq_true] at this
      refine ⟨fun he => by rw [he] at this; simp at this, ?_⟩
      intro m hm
      have h3 := this.2 m hm
      exact eq_of_beq h3
  · rintro ⟨h1, h2⟩
    constructor
    · intro ms hms
      have hl : lookupA z.members ms.1 = some ms.2 :=
        lookupA_of_mem_nodup _ _ _ hW1 (by simpa using hms)
      obtain ⟨b, hb, hmb⟩ := h1 ms.1 ms.2 hl
      rw [hb]
      exact decide_eq_true hmb
    · intro sb hsb
      have hl : lookupA z.scores sb.1 = some sb.2 :=
        lookupA_of_mem_nodup _ _ _ (scoresSorted_keys_nodup _ hW2) (by simpa using hsb)
      obtain ⟨hne, hall⟩ := h2 sb.1 sb.2 hl
      simp only [Bool.and_eq_true, Bool.not_eq_true', List.all_eq_true]
      refine ⟨by simpa [List.isEmpty_iff] using hne, ?_⟩
      intro m hm
      exact beq_iff_eq.mpr (hall m hm)

theorem addFresh_preserves (z : SortedSetData) (s : Score) (m : Str)
    (hw : z.WfP) (hi : z.InvP) (hfresh : lookupA z.members m = none) :
    SortedSetData.WfP ⟨FerroStore.addToBucket z.scores s m, insertA z.members m s⟩ ∧
    SortedSetData.InvP ⟨FerroStore.addToBucket z.scores s m, insertA z.members m s⟩ := by
  obtain ⟨hW1, hW2, hW3⟩ := hw
  obtain ⟨hI1, hI2⟩ := hi
  have hm2 : ∀ m', lookupA (insertA z.members m s) m' =
      if m = m' then some s else lookupA z.members m' :=
    lookupA_insertA z.members m s
  have hs2 := lookupA_addToBucket z.scores s m
  constructor
  · refine ⟨insertA_keys_nodup _ _ _ hW1, addToBucket_sorted _ _ _ hW2, ?_⟩
    intro s' b' hb'
    rw [hs2] at hb'
    by_cases hst : s = s'
    · rw [if_pos hst] at hb'
      injection hb' with hb'
      cases hc : lookupA z.scores s with
      | some b =>
        rw [hc] at hb'
        rw [← hb']
        exact setInsert_nodup _ _ (hW3 s b hc)
      | none =>
        rw [hc] at hb'
        rw [← hb']
        exact List.nodup_singleton m
    · rw [if_neg hst] at hb'
      exact hW3 s' b' hb'
  · constructor
    · intro m' s' hl
      rw [hm2] at hl
      by_cases hmm : m = m'
      · rw [if_pos hmm] at hl
        injection hl with hl
        subst hmm
        subst hl
        cases hc : lookupA z.scores s with
        | some b =>
          refine ⟨setInsert b m, ?_, (mem_setInsert b m m).mpr (Or.inr rfl)⟩
          rw [hs2, if_pos rfl, hc]
        | none =>
          refine ⟨[m], ?_, List.mem_singleton.mpr rfl⟩
          rw [hs2, if_pos rfl, hc]
      · rw [if_neg hmm] at hl
        obtain ⟨b0, hb0, hmb0⟩ := hI1 m' s' hl
        by_cases hss : s = s'
        · subst hss
          refine ⟨setInsert b0 m, ?_, (mem_setInsert b0 m m').mpr (Or.inl hmb0)⟩
          rw [hs2, if_pos rfl, hb0]
        · exact ⟨b0, by rw [hs2, if_neg hss]; exact hb0, hmb0⟩
    · intro s' b' hb'
      rw [hs2] at hb'
      by_cases hst : s = s'
      · subst hst
        rw [if_pos rfl] at hb'
        injection hb' with hb'
        cases hc : lookupA z.scores s with
        | some b =>
          rw [hc] at hb'
          subst hb'
          refine ⟨setInsert_ne_nil b m, ?_⟩
          intro m' hm'
          rcases (mem_setInsert b m m').mp hm' with hin | he
          · have h2 := (hI2 s b hc).2 m' hin
            have hne : m ≠ m' := fun he2 => by
              rw [← he2, hfresh] at h2
              exact Option.noConfusion h2
            rw [hm2, if_neg hne]
            exact h2
          · subst he
            rw [hm2, if_pos rfl]
        | none =>
          rw [hc] at hb'
          subst hb'
          refine ⟨by simp, ?_⟩
          intro m' hm'
          rw [List.mem_singleton] at hm'
          subst hm'
          rw [hm2, if_pos rfl]
      · rw [if_neg hst] at hb'
        obtain ⟨hne, hall⟩ := hI2 s' b' hb'
        refine ⟨hne, ?_⟩
        intro m' hm'
        have h2 := hall m' hm'
        have hnem : m ≠ m' := fun he2 => by
          rw [← he2, hfresh] at h2
          exact Option.noConfusion h2
        rw [hm2, if_neg hnem]
        exact h2

theorem removeMember_preserves (z : SortedSetData) (m : Str) (old : Score)
    (hw : z.WfP) (hi : z.InvP) (hm : lookupA z.members m = some old) :
    SortedSetData.WfP ⟨FerroStore.removeFromBucket z.scores old m, removeA z.members m⟩ ∧
    SortedSetData.InvP ⟨FerroStore.removeFromBucket z.scores old m, removeA z.members m⟩ ∧
    lookupA (removeA z.members m) m = none := by
  obtain ⟨hW1, hW2, hW3⟩ := hw
  obtain ⟨hI1, hI2⟩ := hi
  obtain ⟨bucket, hbuck, hmbk⟩ := hI1 m old hm
  have hkeys := scoresSorted_keys_nodup _ hW2
  have hbnd : bucket.Nodup := hW3 old bucket hbuck
  have hs1 : ∀ t, lookupA (FerroStore.removeFromBucket z.scores old m) t =
      if old = t then
        (if (bucket.erase m).isEmpty then none else some (bucket.erase m))
      else lookupA z.scores t := by
    intro t
    simp only [FerroStore.removeFromBucket, hbuck]
    by_cases hb : (bucket.erase m).isEmpty
    · rw [if_pos hb]
      by_cases ht : old = t
      · subst ht
        rw [if_pos rfl, if_pos hb, lookupA_removeA_self _ _ hkeys]
      · rw [if_neg ht, lookupA_removeA_ne _ _ _ ht]
    · rw [if_neg hb, lookupA_btreeInsert]
      by_cases ht : old = t
      · rw [if_pos ht, if_pos ht, if_neg hb]
      · rw [if_neg ht, if_neg ht]
  have hm1 : ∀ t, lookupA (removeA z.members m) t =
      if m = t then none else lookupA z.members t := by
    intro t
    by_cases ht : m = t
    · subst ht
      rw [if_pos rfl, lookupA_removeA_self _ _ hW1]
    · rw [if_neg ht, lookupA_removeA_ne _ _ _ ht]
  refine ⟨⟨removeA_keys_nodup _ _ hW1, ?_, ?_⟩, ⟨?_, ?_⟩, by rw [hm1, if_pos rfl]⟩
  · simp only [FerroStore.removeFromBucket, hbuck]
    by_cases hb : (bucket.erase m).isEmpty
    · rw [if_pos hb]
      exact scoresSorted_removeA _ _ hW2
    · rw [if_neg hb]
      exact scoresSorted_btreeInsert _ _ _ hW2
  · intro s' b' hb'
    rw [hs1] at hb'
    by_cases hso : old = s'
    · rw [if_pos hso] at hb'
      by_cases hb : (bucket.erase m).isEmpty
      · rw [if_pos hb] at hb'
        exact Option.noConfusion hb'
      · rw [if_neg hb] at hb'
        injection hb' with hb'
        rw [← hb']
        exact hbnd.erase m
    · rw [if_neg hso] at hb'
      exact hW3 s' b' hb'
  · intro m' s' hl
    rw [hm1] at hl
    by_cases hmm : m = m'
    · rw [if_pos hmm] at hl
      exact Option.noConfusion hl
    · rw [if_neg hmm] at hl
      obtain ⟨b0, hb0, hm0⟩ := hI1 m' s' hl
      by_cases hso : old = s'
      · subst hso
        rw [hbuck] at hb0
        injection hb0 with hb0
        subst hb0
        have hmem : m' ∈ bucket.erase m :=
          (hbnd.mem_erase_iff).mpr ⟨fun he => hmm he.symm, hm0⟩
        have hne : (bucket.erase m).isEmpty = false := by
          rw [List.isEmpty_eq_false_iff_exists_mem]
          exact ⟨m', hmem⟩
        refine ⟨bucket.erase m, ?_, hmem⟩
        rw [hs1, if_pos rfl, hne]
        rfl
      · exact ⟨b0, by rw [hs1, if_neg hso]; exact hb0, hm0⟩
  · intro s' b' hb'
    rw [hs1] at hb'
    by_cases hso : old = s'
    · subst hso
      rw [if_pos rfl] at hb'
      by_cases hb : (bucket.erase m).isEmpty
      · rw [if_pos hb] at hb'
        exact Option.noConfusion hb'
      · rw [if_neg hb] at hb'
        injection hb' with hb'
        subst hb'
        refine ⟨fun he => by rw [he] at hb; simp at hb, ?_⟩
        intro m' hm'
        obtain ⟨hne2, hin⟩ := (hbnd.mem_erase_iff).mp hm'
        have h2 := (hI2 old bucket hbuck).2 m' hin
        rw [hm1, if_neg (fun he => hne2 he.symm)]
        exact h2
    · rw [if_neg hso] at hb'
      obtain ⟨hne2, hall⟩ := hI2 s' b' hb'
      refine ⟨hne2, ?_⟩
      intro m' hm'
      have h2 := hall m' hm'
      have hnem : m ≠ m' := by
        intro he
        rw [← he, hm] at h2
        injection h2 with h2
        exact hso h2
      rw [hm1, if_neg hnem]
      exact h2

theorem InvP_members_exten (S : List (Score × List Str))
    (M1 M2 : List (Str × Score))
    (h : ∀ t, lookupA M1 t = lookupA M2 t) :
    SortedSetData.InvP ⟨S, M1⟩ → SortedSetData.InvP ⟨S, M2⟩ := by
  rintro ⟨hI1, hI2⟩
  constructor
  · intro m s hl
    exact hI1 m s (by rw [h]; exact hl)
  · intro s b hb
    obtain ⟨hne, hall⟩ := hI2 s b hb
    exact ⟨hne, fun m hm => by rw [← h]; exact hall m hm⟩

theorem zaddOne_preserves (z : SortedSetData) (s : Score) (m : Str)
    (hw : z.WfP) (hi : z.InvP) :
    (FerroStore.zaddOne z s m).1.WfP ∧ (FerroStore.zaddOne z s m).1.InvP := by
  cases hm : lookupA z.members m with
  | none =>
    rw [FerroStore.zaddOne, hm]
    exact addFresh_preserves z s m hw hi hm
  | some old =>
    rw [FerroStore.zaddOne, hm]
    obtain ⟨hwz1, hiz1, hfr⟩ := removeMember_preserves z m old hw hi hm
    have h2 := addFresh_preserves
      ⟨FerroStore.removeFromBucket z.scores old m, removeA z.members m⟩ s m
      hwz1 hiz1 hfr
    have hlk : ∀ t, lookupA (insertA (removeA z.members m) m s) t =
        lookupA (insertA z.members m s) t := by
      intro t
      rw [lookupA_insertA, lookupA_insertA]
      by_cases ht : m = t
      · rw [if_pos ht, if_pos ht]
      · rw [if_neg ht, if_neg ht, lookupA_removeA_ne _ _ _ ht]
    constructor
    · exact ⟨insertA_keys_nodup _ _ _ hw.1, h2.1.2.1, h2.1.2.2⟩
    · exact InvP_members_exten _ _ _ hlk h2.2

theorem zremOne_preserves (z : SortedSetData) (m : Str)
    (hw : z.WfP) (hi : z.InvP) :
    (FerroStore.zremOne z m).1.WfP ∧ (FerroStore.zremOne z m).1.InvP := by
  cases hm : lookupA z.members m with
  | none =>
    rw [FerroStore.zremOne, hm]
    exact ⟨hw, hi⟩
  | some score =>
    rw [FerroStore.zremOne, hm]
    obtain ⟨hwz, hiz, _⟩ := removeMember_preserves z m score hw hi hm
    exact ⟨hwz, hiz⟩

theorem zaddFold_preserves (z : SortedSetData)
    (members : List (Score × Str)) (hw : z.WfP) (hi : z.InvP) :
    (FerroStore.zaddFold z members).1.WfP ∧
    (FerroStore.zaddFold z members).1.InvP := by
  rw [FerroStore.zaddFold]
  suffices h : ∀ (acc : SortedSetData × Nat), acc.1.WfP → acc.1.InvP →
      (members.foldl (fun acc sm =>
        let r := FerroStore.zaddOne acc.1 sm.1 sm.2
        (r.1, acc.2 + r.2)) acc).1.WfP ∧
      (members.foldl (fun acc sm =>
        let r := FerroStore.zaddOne acc.1 sm.1 sm.2
        (r.1, acc.2 + r.2)) acc).1.InvP by
    exact h (z, 0) hw hi
  induction members with
  | nil => intro acc hw2 hi2; exact ⟨hw2, hi2⟩
  | cons sm rest ih =>
    intro acc hw2 hi2
    rw [List.foldl_cons]
    have h3 := zaddOne_preserves acc.1 sm.1 sm.2 hw2 hi2
    exact ih _ h3.1 h3.2

theorem zremFold_preserves (z : SortedSetData) (members : List Str)
    (hw : z.WfP) (hi : z.InvP) :
    (FerroStore.zremFold z members).1.WfP ∧
    (FerroStore.zremFold z members).1.InvP := by
  rw [FerroStore.zremFold]
  suffices h : ∀ (acc : SortedSetData × Nat), acc.1.WfP → acc.1.InvP →
      (members.foldl (fun acc m =>
        let r := FerroStore.zremOne acc.1 m
        (r.1, acc.2 + r.2)) acc).1.WfP ∧
      (members.foldl (fun acc m =>
        let r := FerroStore.zremOne acc.1 m
        (r.1, acc.2 + r.2)) acc).1.InvP by
    exact h (z, 0) hw hi
  induction members with
  | nil => intro acc hw2 hi2; exact ⟨hw2, hi2⟩
  | cons m rest ih =>
    intro acc hw2 hi2
    rw [List.foldl_cons]
    have h3 := zremOne_preserves acc.1 m hw2 hi2
    exact ih _ h3.1 h3.2

theorem new_WfP_InvP : SortedSetData.WfP .new ∧ SortedSetData.InvP .new := by
  constructor
  · refine ⟨by simp [SortedSetData.new], by simp [SortedSetData.new, scoresSorted], ?_⟩
    intro s b hb
    simp [SortedSetData.new, lookupA] at hb
  · constructor
    · intro m s hl
      simp [SortedSetData.new, lookupA] at hl
    · intro s b hb
      simp [SortedSetData.new, lookupA] at hb

/-- The member-pairs fold of the SortedSet arm of `load_rdb`, starting
from the empty sorted set. -/
def loadZFold (pairs : List (Str × Score)) : SortedSetData :=
  pairs.foldl (fun z2 p => loadZEntry z2 p.1 p.2) .new

theorem loadZFold_preserves (pairs : List (Str × Score))
    (hnd : (pairs.map Prod.fst).Nodup) :
    (loadZFold pairs).WfP ∧ (loadZFold pairs).InvP := by
  rw [loadZFold]
  suffices h : ∀ (z : SortedSetData), z.WfP → z.InvP →
      (∀ m ∈ pairs.map Prod.fst, lookupA z.members m = none) →
      (pairs.foldl (fun z2 p => loadZEntry z2 p.1 p.2) z).WfP ∧
      (pairs.foldl (fun z2 p => loadZEntry z2 p.1 p.2) z).InvP by
    refine h .new new_WfP_InvP.1 new_WfP_InvP.2 ?_
    intro m _
    simp [SortedSetData.new, lookupA]
  induction pairs with
  | nil => intro z hw hi _; exact ⟨hw, hi⟩
  | cons p rest ih =>
    rw [List.map_cons, List.nodup_cons] at hnd
    intro z hw hi hfr
    rw [List.foldl_cons]
    obtain ⟨m0, s0⟩ := p
    have hfr0 : lookupA z.members m0 = none :=
      hfr m0 (by rw [List.map_cons]; exact List.mem_cons.mpr (Or.inl rfl))
    have h2 := addFresh_preserves z s0 m0 hw hi hfr0
    refine ih hnd.2 (loadZEntry z m0 s0) h2.1 h2.2 ?_
    intro m hm
    rw [loadZEntry]
    show lookupA (insertA z.members m0 s0) m = none
    rw [lookupA_insertA]
    have hne : m0 ≠ m := by
      intro he
      exact hnd.1 (he ▸ hm)
    rw [if_neg hne]
    exact hfr m (by rw [List.map_cons]; exact List.mem_cons.mpr (Or.inr hm))

/-- Store-level form of the claimed invariant: every SortedSet value held
by the keyspace is well-formed and index-consistent. -/
def storeZInv (db : FerroStore) : Prop :=
  ∀ k e z, lookupA db k = some e → e.data = .SortedSet z →
    z.wfB = true ∧ z.invB = true

theorem storeZInv_insert (db : FerroStore) (key : Str) (h : storeZInv db)
    (z2 : SortedSetData) (ex : Option Nat) (hw2 : z2.wfB = true)
    (hi2 : z2.invB = true) :
    storeZInv (insertA db key ⟨.SortedSet z2, ex⟩) := by
  intro k' e' z' hlk hdata
  rw [lookupA_insertA] at hlk
  by_cases hk : key = k'
  · rw [if_pos hk] at hlk
    injection hlk with hlk
    rw [← hlk] at hdata
    injection hdata with hdata
    rw [← hdata]
    exact ⟨hw2, hi2⟩
  · rw [if_neg hk] at hlk
    exact h k' e' z' hlk hdata

theorem storeZInv_insert_other (db : FerroStore) (key : Str)
    (h : storeZInv db) (e : ValueWithExpiry)
    (he : ∀ z, e.data ≠ .SortedSet z) :
    storeZInv (insertA db key e) := by
  intro k' e' z' hlk hdata
  rw [lookupA_insertA] at hlk
  by_cases hk : key = k'
  · rw [if_pos hk] at hlk
    injection hlk with hlk
    rw [← hlk] at hdata
    exact absurd hdata (he z')
  · rw [if_neg hk] at hlk
    exact h k' e' z' hlk hdata

theorem storeZInv_remove (db : FerroStore) (key : Str)
    (hnd : (db.map Prod.fst).Nodup) (h : storeZInv db) :
    storeZInv (removeA db key) := by
  intro k' e' z' hlk hdata
  by_cases hk : key = k'
  · subst hk
    rw [lookupA_removeA_self _ _ hnd] at hlk
    exact Option.noConfusion hlk
  · rw [lookupA_removeA_ne _ _ _ hk] at hlk
    exact h k' e' z' hlk hdata

theorem wfInvB_of_P (z : SortedSetData) (hw : z.WfP) (hi : z.InvP) :
    z.wfB = true ∧ z.invB = true :=
  ⟨(wfB_iff_WfP z).mpr hw, (invB_iff_InvP z hw).mpr hi⟩

theorem zaddFold_B (z : SortedSetData) (mems : List (Score × Str))
    (hw : z.wfB = true) (hi : z.invB = true) :
    (FerroStore.zaddFold z mems).1.wfB = true ∧
    (FerroStore.zaddFold z mems).1.invB = true := by
  have hwp := (wfB_iff_WfP z).mp hw
  have hip := (invB_iff_InvP z hwp).mp hi
  have h2 := zaddFold_preserves z mems hwp hip
  exact wfInvB_of_P _ h2.1 h2.2

theorem zremFold_B (z : SortedSetData) (ms : List Str)
    (hw : z.wfB = true) (hi : z.invB = true) :
    (FerroStore.zremFold z ms).1.wfB = true ∧
    (FerroStore.zremFold z ms).1.invB = true := by
  have hwp := (wfB_iff_WfP z).mp hw
  have hip := (invB_iff_InvP z hwp).mp hi
  have h2 := zremFold_preserves z ms hwp hip
  exact wfInvB_of_P _ h2.1 h2.2

theorem new_B : SortedSetData.wfB .new = true ∧ SortedSetData.invB .new = true :=
  wfInvB_of_P _ new_WfP_InvP.1 new_WfP_InvP.2

theorem zadd_preserves_storeZInv (db : FerroStore) (now : Nat) (key : Str)
    (mems : List (Score × Str)) (hnd : (db.map Prod.fst).Nodup)
    (h : storeZInv db) :
    storeZInv (FerroStore.zadd db now key mems).2 := by
  have hnew := zaddFold_B .new mems new_B.1 new_B.2
  cases hl : lookupA db key with
  | none =>
    simp only [FerroStore.zadd, hl]
    exact storeZInv_insert db key h _ none hnew.1 hnew.2
  | some entry =>
    by_cases hexp : entry.is_expired now = true
    · simp only [FerroStore.zadd, hl, hexp, if_true]
      exact storeZInv_insert db key h _ none hnew.1 hnew.2
    · simp only [FerroStore.zadd, hl, hexp, Bool.false_eq_true, if_false]
      cases hd : entry.data with
      | SortedSet z =>
        obtain ⟨hw, hi⟩ := h key entry z hl hd
        have hf := zaddFold_B z mems hw hi
        exact storeZInv_insert db key h _ entry.expires_at hf.1 hf.2
      | String s2 => exact h
      | List l2 => exact h
      | Set s2 => exact h

theorem zrem_preserves_storeZInv (db : FerroStore) (now : Nat) (key : Str)
    (ms : List Str) (hnd : (db.map Prod.fst).Nodup) (h : storeZInv db) :
    storeZInv (FerroStore.zrem db now key ms).2 := by
  cases hl : lookupA db key with
  | none =>
    simp only [FerroStore.zrem, hl]
    exact h
  | some entry =>
    by_cases hexp : entry.is_expired now = true
    · simp only [FerroStore.zrem, hl, hexp, if_true]
      exact storeZInv_remove db key hnd h
    · simp only [FerroStore.zrem, hl, hexp, Bool.false_eq_true, if_false]
      cases hd : entry.data with
      | SortedSet z =>
        obtain ⟨hw, hi⟩ := h key entry z hl hd
        have hf := zremFold_B z ms hw hi
        by_cases hemp : (FerroStore.zremFold z ms).1.is_empty = true
        · simp only [hemp, if_true]
          exact storeZInv_remove db key hnd h
        · simp only [hemp, Bool.false_eq_true, if_false]
          exact storeZInv_insert db key h _ entry.expires_at hf.1 hf.2
      | String s2 => exact h
      | List l2 => exact h
      | Set s2 => exact h

theorem zaddOne_B (z : SortedSetData) (s : Score) (m : Str)
    (hw : z.wfB = true) (hi : z.invB = true) :
    (FerroStore.zaddOne z s m).1.wfB = true ∧
    (FerroStore.zaddOne z s m).1.invB = true := by
  have hwp := (wfB_iff_WfP z).mp hw
  have hip := (invB_iff_InvP z hwp).mp hi
  have h2 := zaddOne_preserves z s m hwp hip
  exact wfInvB_of_P _ h2.1 h2.2

theorem zremOne_B (z : SortedSetData) (m : Str)
    (hw : z.wfB = true) (hi : z.invB = true) :
    (FerroStore.zremOne z m).1.wfB = true ∧
    (FerroStore.zremOne z m).1.invB = true := by
  have hwp := (wfB_iff_WfP z).mp hw
  have hip := (invB_iff_InvP z hwp).mp hi
  have h2 := zremOne_preserves z m hwp hip
  exact wfInvB_of_P _ h2.1 h2.2

/-- C7 counterexample: a syntactically valid snapshot file whose single
SortedSet entry lists the same member twice with different scores.
`load_rdb` accepts it, but its index-rebuilding loop overwrites the member
index without removing the member from its previous bucket, so the loaded
SortedSet violates the two-index consistency invariant: member `a` sits in
the bucket of score 1 while the member index maps it to score 2. -/
theorem C7_counterexample :
    load_rdb (Tok.bytes MAGIC :: Tok.u8 1 :: Tok.u64be 1 ::
      (write_string ['k'] ++ [Tok.u8 3, Tok.u64le 2] ++
       write_string ['a'] ++ [Tok.f64le 1] ++
       write_string ['a'] ++ [Tok.f64le 2] ++ [Tok.u8 0])) [] 0 =
      .ok [(['k'],
        ⟨.SortedSet ⟨[(1, [['a']]), (2, [['a']])], [(['a'], 2)]⟩, none⟩)] ∧
    SortedSetData.invB ⟨[(1, [['a']]), (2, [['a']])], [(['a'], 2)]⟩ = false :=
  ⟨rfl, rfl⟩

/-- C7 (amended): the two sorted-set indexes are mutually consistent, with
no empty bucket, for every SortedSet value reachable through `zadd` and
`zrem` (at the per-member step, the member loop, and the keyspace level)
and through loading snapshot files whose sorted sets carry no duplicate
member — which includes every file `save_rdb` produces.  A crafted file
with a duplicated member violates the invariant (see the
counterexample). -/
theorem C7_zset_invariant_amended :
    (∀ (z : SortedSetData) (s : Score) (m : Str), z.wfB = true →
      z.invB = true → (FerroStore.zaddOne z s m).1.wfB = true ∧
        (FerroStore.zaddOne z s m).1.invB = true) ∧
    (∀ (z : SortedSetData) (m : Str), z.wfB = true → z.invB = true →
      (FerroStore.zremOne z m).1.wfB = true ∧
        (FerroStore.zremOne z m).1.invB = true) ∧
    (∀ (z : SortedSetData) (mems : List (Score × Str)), z.wfB = true →
      z.invB = true → (FerroStore.zaddFold z mems).1.wfB = true ∧
        (FerroStore.zaddFold z mems).1.invB = true) ∧
    (∀ (z : SortedSetData) (ms : List Str), z.wfB = true → z.invB = true →
      (FerroStore.zremFold z ms).1.wfB = true ∧
        (FerroStore.zremFold z ms).1.invB = true) ∧
    (∀ pairs : List (Str × Score), (pairs.map Prod.fst).Nodup →
      (loadZFold pairs).wfB = true ∧ (loadZFold pairs).invB = true) ∧
    (∀ (db : FerroStore) (now : Nat) (key : Str) (mems : List (Score × Str)),
      (db.map Prod.fst).Nodup → storeZInv db →
      storeZInv (FerroStore.zadd db now key mems).2) ∧
    (∀ (db : FerroStore) (now : Nat) (key : Str) (ms : List Str),
      (db.map Prod.fst).Nodup → storeZInv db →
      storeZInv (FerroStore.zrem db now key ms).2) :=
  ⟨zaddOne_B, zremOne_B, zaddFold_B, zremFold_B,
   fun pairs hnd =>
     wfInvB_of_P _ (loadZFold_preserves pairs hnd).1 (loadZFold_preserves pairs hnd).2,
   zadd_preserves_storeZInv, zrem_preserves_storeZInv⟩

/-- C7 witness. -/
theorem C7_witness :
    ((FerroStore.zaddOne ⟨[(1, [['a']])], [(['a'], 1)]⟩ 2 ['b']).1.wfB = true ∧
      (FerroStore.zaddOne ⟨[(1, [['a']])], [(['a'], 1)]⟩ 2 ['b']).1.invB = true) ∧
    storeZInv (FerroStore.zadd [] 0 ['q'] [(1, ['x'])]).2 :=
  ⟨C7_zset_invariant_amended.1 ⟨[(1, [['a']])], [(['a'], 1)]⟩ 2 ['b']
      (by decide) (by decide),
   C7_zset_invariant_amended.2.2.2.2.2.1 [] 0 ['q'] [(1, ['x'])] (by decide)
      (fun k e z h _ => Option.noConfusion h)⟩

/-! ## Command dispatcher (src/commands.rs)

The dispatcher is modeled without the pub/sub hub (`pubsub = None`,
`client_subs = None` in the source signature; `subscribed` abbreviates
"client_subs is present and has at least one subscription").  `aof`
abbreviates "an AofWriter was supplied".  File-io commands (SAVE) reply as
on successful io.  A `none` result models a Rust panic.  The trace records
the `log_command` call and whether the dispatched handler invoked
write-locking store operations (one `storeWrite` may cover a handler's
whole loop of store calls). -/

/-- Rust `str::to_uppercase` (ASCII command names). -/
def upperStr (s : Str) : Str := s.map Char.toUpper

/-- Trace events of one `handle_command` execution. -/
inductive Ev where
  | aofAppend (cmd : RespValue)
  | storeWrite

/-- The `matches!` list deciding `should_log` in `handle_command`. -/
def shouldLog (name : Str) : Bool :=
  name == "SET".toList || name == "DEL".toList || name == "EXPIRE".toList ||
  name == "PERSIST".toList || name == "SETEX".toList || name == "MSET".toList ||
  name == "LPUSH".toList || name == "RPUSH".toList || name == "LPOP".toList ||
  name == "RPOP".toList || name == "SADD".toList || name == "SREM".toList ||
  name == "ZADD".toList || name == "ZREM".toList

/-- The reply `format!("-{}", e)` for the storage wrong-type error. -/
def wrongTypeReply : RespValue :=
  .SimpleString ('-' ::
    "WRONGTYPE Operation against a key holding the wrong kind of value".toList)

/-- Collect bulk-string arguments, `none` at the first non-bulk one. -/
def collectBulk : List RespValue → Option (List Str)
  | [] => some []
  | .BulkString s :: rest => (collectBulk rest).map (fun l => s :: l)
  | _ :: _ => none

/-- `handle_set`. -/
def handle_set (cmdArray : List RespValue) (store : FerroStore) :
    RespValue × FerroStore × Bool :=
  if cmdArray.length ≠ 3 then
    (.SimpleString ("ERR wrong number of arguments for 'set'".toList), store, false)
  else
    match cmdArray with
    | [_, .BulkString k, .BulkString v] =>
      (.SimpleString ("OK".toList), FerroStore.set store k v, true)
    | _ => (.SimpleString ("ERR arguments must be bulk strings".toList), store, false)

/-- `handle_get`. -/
def handle_get (cmdArray : List RespValue) (store : FerroStore) (now : Nat) :
    RespValue × FerroStore × Bool :=
  if cmdArray.length ≠ 2 then
    (.SimpleString ("ERR wrong number of arguments for get".toList), store, false)
  else
    match cmdArray with
    | [_, .BulkString k] =>
      let r := FerroStore.get store now k
      (match r.1 with
       | some v => .BulkString v
       | none => .Null, r.2, true)
    | _ => (.SimpleString ("ERR key must be a bulk string".toList), store, false)

/-- `handle_ping`. -/
def handle_ping (cmdArray : List RespValue) : RespValue :=
  if cmdArray.length = 1 then .SimpleString ("PONG".toList)
  else if cmdArray.length = 2 then
    match cmdArray with
    | [_, .BulkString msg] => .BulkString msg
    | _ => .SimpleString ("ERR wrong argument type".toList)
  else .SimpleString ("ERR wrong number of arguments for 'ping'".toList)

/-- The key loop of `handle_exists`. -/
def existsLoop (now : Nat) :
    List RespValue → FerroStore → Int → RespValue × FerroStore
  | [], st, cnt => (.Integer cnt, st)
  | .BulkString k :: rest, st, cnt =>
    let r := FerroStore.keyExists st now k
    existsLoop now rest r.2 (if r.1 then cnt + 1 else cnt)
  | _ :: _, st, _ =>
    (.SimpleString ("ERR all keys must be bulk strings".toList), st)

/-- `handle_exists`. -/
def handle_exists (cmdArray : List RespValue) (store : FerroStore) (now : Nat) :
    RespValue × FerroStore × Bool :=
  if cmdArray.length < 2 then
    (.SimpleString ("ERR wrong number of arguments for 'exists' command".toList),
      store, false)
  else
    let r := existsLoop now (cmdArray.drop 1) store 0
    (r.1, r.2, true)

/-- The key loop of `handle_del`. -/
def delLoop : List RespValue → FerroStore → Int → RespValue × FerroStore
  | [], st, cnt => (.Integer cnt, st)
  | .BulkString k :: rest, st, cnt =>
    let r := FerroStore.delete st k
    delLoop rest r.2 (if r.1 then cnt + 1 else cnt)
  | _ :: _, st, _ =>
    (.SimpleString ("ERR all keys must be bulk strings".toList), st)

/-- `handle_del`. -/
def handle_del (cmdArray : List RespValue) (store : FerroStore) :
    RespValue × FerroStore × Bool :=
  if cmdArray.length < 2 then
    (.SimpleString ("ERR wrong number of arguments for 'del' command".toList),
      store, false)
  else
    let r := delLoop (cmdArray.drop 1) store 0
    (r.1, r.2, true)

/-- The key loop of `handle_mget`. -/
def mgetLoop (now : Nat) :
    List RespValue → FerroStore → List RespValue → RespValue × FerroStore
  | [], st, acc => (.Array acc, st)
  | .BulkString k :: rest, st, acc =>
    let r := FerroStore.get st now k
    mgetLoop now rest r.2
      (acc ++ [match r.1 with
        | some v => RespValue.BulkString v
        | none => RespValue.Null])
  | _ :: _, st, _ =>
    (.SimpleString ("ERR all keys must be bulk strings".toList), st)

/-- `handle_mget`. -/
def handle_mget (cmdArray : List RespValue) (store : FerroStore) (now : Nat) :
    RespValue × FerroStore × Bool :=
  if cmdArray.length < 2 then
    (.SimpleString ("ERR wrong number of arguments for 'mget' command".toList),
      store, false)
  else
    let r := mgetLoop now (cmdArray.drop 1) store []
    (r.1, r.2, true)

/-- Bulk-string test. -/
def isBulk : RespValue → Bool
  | .BulkString _ => true
  | _ => false

/-- The pair-setting loop of `handle_mset`. -/
def msetPairs : List RespValue → FerroStore → FerroStore
  | .BulkString k :: .BulkString v :: rest, st =>
    msetPairs rest (FerroStore.set st k v)
  | _, st => st

/-- `handle_mset`. -/
def handle_mset (cmdArray : List RespValue) (store : FerroStore) :
    RespValue × FerroStore × Bool :=
  if cmdArray.length < 2 then
    (.SimpleString ("ERR Wrong number of arguments for 'mset'".toList), store, false)
  else if cmdArray.length % 2 ≠ 1 then
    (.SimpleString ("ERR Wrong number of arguments for 'mset'".toList), store, false)
  else if !(cmdArray.drop 1).all isBulk then
    (.SimpleString ("ERR all arguments to mset must be bulk strings".toList),
      store, false)
  else
    (.SimpleString ("OK".toList), msetPairs (cmdArray.drop 1) store, true)

/-- `handle_expire`. -/
def handle_expire (cmdArray : List RespValue) (store : FerroStore) (now : Nat) :
    RespValue × FerroStore × Bool :=
  if cmdArray.length ≠ 3 then
    (.SimpleString ("ERR wrong number of arguments for 'expire' command".toList),
      store, false)
  else
    match cmdArray with
    | [_, .BulkString key, .BulkString secondsStr] =>
      match rustParseNat secondsStr with
      | some seconds =>
        let r := FerroStore.expire store now key seconds
        (.Integer (if r.1 then 1 else 0), r.2, true)
      | none =>
        (.SimpleString ("ERR value is not an integer or out of range".toList),
          store, false)
    | _ => (.SimpleString ("ERR arguments must be bulk strings".toList), store, false)

/-- `handle_ttl`. -/
def handle_ttl (cmdArray : List RespValue) (store : FerroStore) (now : Nat) :
    RespValue × FerroStore × Bool :=
  if cmdArray.length ≠ 2 then
    (.SimpleString ("ERR wrong number of arguments for 'ttl' command".toList),
      store, false)
  else
    match cmdArray with
    | [_, .BulkString key] =>
      (match FerroStore.ttl store now key with
       | some t => .Integer t
       | none => .Integer (-2), store, false)
    | _ => (.SimpleString ("ERR key must be a bulk string".toList), store, false)

/-- `handle_persist`. -/
def handle_persist (cmdArray : List RespValue) (store : FerroStore) (now : Nat) :
    RespValue × FerroStore × Bool :=
  if cmdArray.length ≠ 2 then
    (.SimpleString ("ERR wrong number of arguments for 'persist' command".toList),
      store, false)
  else
    match cmdArray with
    | [_, .BulkString key] =>
      let r := FerroStore.persist store now key
      (.Integer (if r.1 then 1 else 0), r.2, true)
    | _ => (.SimpleString ("ERR key must be a bulk string".toList), store, false)

/-- `handle_setex`. -/
def handle_setex (cmdArray : List RespValue) (store : FerroStore) (now : Nat) :
    RespValue × FerroStore × Bool :=
  if cmdArray.length ≠ 4 then
    (.SimpleString ("ERR wrong number of arguments for 'setex' command".toList),
      store, false)
  else
    match cmdArray with
    | [_, .BulkString key, .BulkString secondsStr, .BulkString value] =>
      match rustParseNat secondsStr with
      | some seconds =>
        (.SimpleString ("OK".toList),
          FerroStore.set_with_expiry store now key value seconds, true)
      | none =>
        (.SimpleString ("ERR value is not an integer or out of range".toList),
          store, false)
    | _ => (.SimpleString ("ERR arguments must be bulk strings".toList), store, false)

/-- `FerroStore::sunion` key loop (read lock only): absent and expired keys
are skipped, a wrong-typed entry aborts. -/
def FerroStore.sunionLoop (db : FerroStore) (now : Nat) :
    List Str → List Str → Except StoreErr (List Str)
  | [], acc => .ok acc
  | k :: restKeys, acc =>
    match lookupA db k with
    | some entry =>
      if entry.is_expired now then FerroStore.sunionLoop db now restKeys acc
      else
        match entry.data with
        | .Set s =>
          FerroStore.sunionLoop db now restKeys
            (acc ++ s.filter (fun m => decide (m ∉ acc)))
        | _ => .error .wrongType
    | none => FerroStore.sunionLoop db now restKeys acc

/-- `FerroStore::sunion`. -/
def FerroStore.sunion (db : FerroStore) (now : Nat) (keys : List Str) :
    Except StoreErr (List Str) :=
  match keys with
  | [] => .ok []
  | _ => FerroStore.sunionLoop db now keys []

/-- `FerroStore::sdiff` subtraction loop (read lock only). -/
def FerroStore.sdiffLoop (db : FerroStore) (now : Nat) :
    List Str → List Str → Except StoreErr (List Str)
  | [], acc => .ok acc
  | k :: restKeys, acc =>
    match lookupA db k with
    | some entry =>
      if entry.is_expired now then FerroStore.sdiffLoop db now restKeys acc
      else
        match entry.data with
        | .Set s =>
          FerroStore.sdiffLoop db now restKeys
            (acc.filter (fun m => decide (m ∉ s)))
        | _ => .error .wrongType
    | none => FerroStore.sdiffLoop db now restKeys acc

/-- `FerroStore::sdiff`: the first key seeds the result unless absent or
expired (then the seed is empty, but the loop still runs). -/
def FerroStore.sdiff (db : FerroStore) (now : Nat) (keys : List Str) :
    Except StoreErr (List Str) :=
  match keys with
  | [] => .ok []
  | firstKey :: restKeys =>
    match lookupA db firstKey with
    | some entry =>
      if entry.is_expired now then FerroStore.sdiffLoop db now restKeys []
      else
        match entry.data with
        | .Set s => FerroStore.sdiffLoop db now restKeys s
        | _ => .error .wrongType
    | none => FerroStore.sdiffLoop db now restKeys []

/-- `handle_lpush`. -/
def handle_lpush (cmdArray : List RespValue) (store : FerroStore) (now : Nat) :
    RespValue × FerroStore × Bool :=
  if cmdArray.length < 3 then
    (.SimpleString ("ERR Wrong number of arguments for 'lpush' command".toList),
      store, false)
  else
    match cmdArray with
    | _ :: .BulkString key :: vals =>
      match collectBulk vals with
      | some values =>
        let r := FerroStore.lpush store now key values
        (match r.1 with
         | .ok n => .Integer (Int.ofNat n)
         | .error _ => wrongTypeReply, r.2, true)
      | none =>
        (.SimpleString ("ERR all values must be bulk strings".toList), store, false)
    | _ => (.SimpleString ("ERR key must be a bulk string".toList), store, false)

/-- `handle_rpush` (its arity message says 'lpush', as in the source). -/
def handle_rpush (cmdArray : List RespValue) (store : FerroStore) (now : Nat) :
    RespValue × FerroStore × Bool :=
  if cmdArray.length < 3 then
    (.SimpleString ("ERR Wrong number of arguments for 'lpush' command".toList),
      store, false)
  else
    match cmdArray with
    | _ :: .BulkString key :: vals =>
      match collectBulk vals with
      | some values =>
        let r := FerroStore.rpush store now key values
        (match r.1 with
         | .ok n => .Integer (Int.ofNat n)
         | .error _ => wrongTypeReply, r.2, true)
      | none =>
        (.SimpleString ("ERR all values must be bulk strings".toList), store, false)
    | _ => (.SimpleString ("ERR key must be a bulk string".toList), store, false)

/-- The store call and reply shaping shared by the tail of `handle_lpop`. -/
def lpopGo (store : FerroStore) (now : Nat) (key : Str) (count : Option Nat) :
    RespValue × FerroStore × Bool :=
  let r := FerroStore.lpop store now key count
  (match r.1 with
   | .ok [] => .Null
   | .ok (v :: vs) =>
     if count.isNone then .BulkString v
     else .Array ((v :: vs).map RespValue.BulkString)
   | .error _ => wrongTypeReply, r.2, true)

/-- `handle_lpop`. -/
def handle_lpop (cmdArray : List RespValue) (store : FerroStore) (now : Nat) :
    RespValue × FerroStore × Bool :=
  if cmdArray.length < 2 ∨ cmdArray.length > 3 then
    (.SimpleString ("ERR wrong number of arguments for 'lpop' command".toList),
      store, false)
  else
    match cmdArray with
    | _ :: .BulkString key :: rest =>
      match rest with
      | [] => lpopGo store now key none
      | [.BulkString countStr] =>
        match rustParseNat countStr with
        | some c => lpopGo store now key (some c)
        | none =>
          (.SimpleString ("ERR value is not an integer".toList), store, false)
      | _ => (.SimpleString ("ERR count must be a bulk string".toList), store, false)
    | _ => (.SimpleString ("ERR key must be a bulk string".toList), store, false)

/-- The store call and reply shaping shared by the tail of `handle_rpop`. -/
def rpopGo (store : FerroStore) (now : Nat) (key : Str) (count : Option Nat) :
    RespValue × FerroStore × Bool :=
  let r := FerroStore.rpop store now key count
  (match r.1 with
   | .ok [] => .Null
   | .ok (v :: vs) =>
     if count.isNone then .BulkString v
     else .Array ((v :: vs).map RespValue.BulkString)
   | .error _ => wrongTypeReply, r.2, true)

/-- `handle_rpop`. -/
def handle_rpop (cmdArray : List RespValue) (store : FerroStore) (now : Nat) :
    RespValue × FerroStore × Bool :=
  if cmdArray.length < 2 ∨ cmdArray.length > 3 then
    (.SimpleString ("ERR wrong number of arguments for 'rpop' command".toList),
      store, false)
  else
    match cmdArray with
    | _ :: .BulkString key :: rest =>
      match rest with
      | [] => rpopGo store now key none
      | [.BulkString countStr] =>
        match rustParseNat countStr with
        | some c => rpopGo store now key (some c)
        | none =>
          (.SimpleString ("ERR value is not an integer".toList), store, false)
      | _ => (.SimpleString ("ERR count must be a bulk string".toList), store, false)
    | _ => (.SimpleString ("ERR key must be a bulk string".toList), store, false)

/-- `handle_llen`. -/
def handle_llen (cmdArray : List RespValue) (store : FerroStore) (now : Nat) :
    RespValue × FerroStore × Bool :=
  if cmdArray.length ≠ 2 then
    (.SimpleString ("ERR wrong number of arguments for 'llen' command".toList),
      store, false)
  else
    match cmdArray with
    | [_, .BulkString key] =>
      let r := FerroStore.llen store now key
      (match r.1 with
       | .ok n => .Integer (Int.ofNat n)
       | .error _ => wrongTypeReply, r.2, true)
    | _ => (.SimpleString ("ERR key must be a bulk string".toList), store, false)

/-- `handle_lrange`. -/
def handle_lrange (cmdArray : List RespValue) (store : FerroStore) (now : Nat) :
    RespValue × FerroStore × Bool :=
  if cmdArray.length ≠ 4 then
    (.SimpleString ("ERR wrong number of arguments for 'lrange' command".toList),
      store, false)
  else
    match cmdArray with
    | [_, .BulkString key, .BulkString startStr, .BulkString stopStr] =>
      match rustParseInt startStr with
      | none => (.SimpleString ("ERR value is not an integer".toList), store, false)
      | some start =>
        match rustParseInt stopStr with
        | none => (.SimpleString ("ERR value is not an integer".toList), store, false)
        | some stop =>
          let r := FerroStore.lrange store now key start stop
          (match r.1 with
           | .ok values => .Array (values.map RespValue.BulkString)
           | .error _ => wrongTypeReply, r.2, true)
    | _ => (.SimpleString ("ERR arguments must be bulk strings".toList), store, false)

/-- `handle_save` (the file write is modeled as succeeding). -/
def handle_save (cmdArray : List RespValue) : RespValue :=
  if cmdArray.length ≠ 1 then
    .SimpleString ("ERR Wrong number of arguments for 'save' command".toList)
  else .SimpleString ("OK".toList)

/-- `handle_bgsave` (its arity message says 'save', as in the source). -/
def handle_bgsave (cmdArray : List RespValue) : RespValue :=
  if cmdArray.length ≠ 1 then
    .SimpleString ("ERR Wrong number of arguments for 'save' command".toList)
  else .SimpleString ("Background saving started".toList)

/-- `handle_lastsave` (ignores its arguments). -/
def handle_lastsave (cmdArray : List RespValue) : RespValue := .Integer 0

/-- `handle_dbsize`. -/
def handle_dbsize (cmdArray : List RespValue) (store : FerroStore) : RespValue :=
  if cmdArray.length ≠ 1 then
    .SimpleString ("ERR wrong number of arguments for 'dbsize' command".toList)
  else .Integer (Int.ofNat (FerroStore.dbsize store))

/-- `handle_bgrewriteaof` (the rewrite reads a snapshot only). -/
def handle_bgrewriteaof (cmdArray : List RespValue) : RespValue :=
  if cmdArray.length ≠ 1 then
    .SimpleString ("ERR wrong number of arguments for 'bgrewriteaof' command".toList)
  else .SimpleString ("Background AOF rewrite started".toList)

/-- `handle_sadd`. -/
def handle_sadd (cmdArray : List RespValue) (store : FerroStore) (now : Nat) :
    RespValue × FerroStore × Bool :=
  if cmdArray.length < 3 then
    (.SimpleString ("ERR wrong number of arguments for 'sadd' command".toList),
      store, false)
  else
    match cmdArray with
    | _ :: .BulkString key :: vals =>
      match collectBulk vals with
      | some members =>
        let r := FerroStore.sadd store now key members
        (match r.1 with
         | .ok added => .Integer (Int.ofNat added)
         | .error _ => wrongTypeReply, r.2, true)
      | none =>
        (.SimpleString ("ERR all members must be bulk strings".toList), store, false)
    | _ => (.SimpleString ("ERR key must be a bulk string".toList), store, false)

/-- `handle_srem`. -/
def handle_srem (cmdArray : List RespValue) (store : FerroStore) (now : Nat) :
    RespValue × FerroStore × Bool :=
  if cmdArray.length < 3 then
    (.SimpleString ("ERR wrong number of arguments for 'srem' command".toList),
      store, false)
  else
    match cmdArray with
    | _ :: .BulkString key :: vals =>
      match collectBulk vals with
      | some members =>
        let r := FerroStore.srem store now key members
        (match r.1 with
         | .ok removed => .Integer (Int.ofNat removed)
         | .error _ => wrongTypeReply, r.2, true)
      | none =>
        (.SimpleString ("ERR all members must be bulk strings".toList), store, false)
    | _ => (.SimpleString ("ERR key must be a bulk string".toList), store, false)

/-- `handle_smembers`. -/
def handle_smembers (cmdArray : List RespValue) (store : FerroStore) (now : Nat) :
    RespValue × FerroStore × Bool :=
  if cmdArray.length ≠ 2 then
    (.SimpleString ("ERR wrong number of arguments for 'smembers' command".toList),
      store, false)
  else
    match cmdArray with
    | [_, .BulkString key] =>
      let r := FerroStore.smembers store now key
      (match r.1 with
       | .ok members => .Array (members.map RespValue.BulkString)
       | .error _ => wrongTypeReply, r.2, true)
    | _ => (.SimpleString ("ERR key must be a bulk string".toList), store, false)

/-- `handle_sismember`. -/
def handle_sismember (cmdArray : List RespValue) (store : FerroStore) (now : Nat) :
    RespValue × FerroStore × Bool :=
  if cmdArray.length ≠ 3 then
    (.SimpleString ("ERR wrong number of arguments for 'sismember' command".toList),
      store, false)
  else
    match cmdArray with
    | [_, .BulkString key, .BulkString member] =>
      let r := FerroStore.sismember store now key member
      (match r.1 with
       | .ok b => .Integer (if b then 1 else 0)
       | .error _ => wrongTypeReply, r.2, true)
    | _ => (.SimpleString ("ERR arguments must be bulk strings".toList), store, false)

/-- `handle_scard`. -/
def handle_scard (cmdArray : List RespValue) (store : FerroStore) (now : Nat) :
    RespValue × FerroStore × Bool :=
  if cmdArray.length ≠ 2 then
    (.SimpleString ("ERR wrong number of arguments for 'scard' command".toList),
      store, false)
  else
    match cmdArray with
    | [_, .BulkString key] =>
      let r := FerroStore.scard store now key
      (match r.1 with
       | .ok size => .Integer (Int.ofNat size)
       | .error _ => wrongTypeReply, r.2, true)
    | _ => (.SimpleString ("ERR key must be a bulk string".toList), store, false)

/-- `handle_sinter` (the store operation takes only the read lock). -/
def handle_sinter (cmdArray : List RespValue) (store : FerroStore) (now : Nat) :
    RespValue :=
  if cmdArray.length < 2 then
    .SimpleString ("ERR wrong number of arguments for 'sinter' command".toList)
  else
    match collectBulk (cmdArray.drop 1) with
    | some keys =>
      match FerroStore.sinter store now keys with
      | .ok members => .Array (members.map RespValue.BulkString)
      | .error _ => wrongTypeReply
    | none => .SimpleString ("ERR all keys must be bulk strings".toList)

/-- `handle_sunion`. -/
def handle_sunion (cmdArray : List RespValue) (store : FerroStore) (now : Nat) :
    RespValue :=
  if cmdArray.length < 2 then
    .SimpleString ("ERR wrong number of arguments for 'sunion' command".toList)
  else
    match collectBulk (cmdArray.drop 1) with
    | some keys =>
      match FerroStore.sunion store now keys with
      | .ok members => .Array (members.map RespValue.BulkString)
      | .error _ => wrongTypeReply
    | none => .SimpleString ("ERR all keys must be bulk strings".toList)

/-- `handle_sdiff`. -/
def handle_sdiff (cmdArray : List RespValue) (store : FerroStore) (now : Nat) :
    RespValue :=
  if cmdArray.length < 2 then
    .SimpleString ("ERR wrong number of arguments for 'sdiff' command".toList)
  else
    match collectBulk (cmdArray.drop 1) with
    | some keys =>
      match FerroStore.sdiff store now keys with
      | .ok members => .Array (members.map RespValue.BulkString)
      | .error _ => wrongTypeReply
    | none => .SimpleString ("ERR all keys must be bulk strings".toList)

/-- The pair-collection loop of `handle_zadd`; `Sum.inl` carries the error
reply text.  Scores use the integer model of `parse::<f64>`. -/
def collectZPairs : List RespValue → Sum Str (List (Score × Str))
  | [] => .inr []
  | .BulkString scoreStr :: .BulkString member :: rest =>
    (match rustParseInt scoreStr with
     | some score =>
       match collectZPairs rest with
       | .inl e => .inl e
       | .inr ps => .inr ((score, member) :: ps)
     | none => .inl ("ERR value is not a valid float".toList))
  | _ => .inl ("ERR syntax error".toList)

/-- `handle_zadd`. -/
def handle_zadd (cmdArray : List RespValue) (store : FerroStore) (now : Nat) :
    RespValue × FerroStore × Bool :=
  if cmdArray.length < 4 ∨ (cmdArray.length - 2) % 2 ≠ 0 then
    (.SimpleString ("ERR wrong number of arguments for 'zadd' command".toList),
      store, false)
  else
    match cmdArray with
    | _ :: .BulkString key :: pairItems =>
      match collectZPairs pairItems with
      | .inl msg => (.SimpleString msg, store, false)
      | .inr members =>
        let r := FerroStore.zadd store now key members
        (match r.1 with
         | .ok added => .Integer (Int.ofNat added)
         | .error _ => wrongTypeReply, r.2, true)
    | _ => (.SimpleString ("ERR key must be a bulk string".toList), store, false)

/-- `handle_zrem`. -/
def handle_zrem (cmdArray : List RespValue) (store : FerroStore) (now : Nat) :
    RespValue × FerroStore × Bool :=
  if cmdArray.length < 3 then
    (.SimpleString ("ERR wrong number of arguments for 'zrem' command".toList),
      store, false)
  else
    match cmdArray with
    | _ :: .BulkString key :: vals =>
      match collectBulk vals with
      | some members =>
        let r := FerroStore.zrem store now key members
        (match r.1 with
         | .ok removed => .Integer (Int.ofNat removed)
         | .error _ => wrongTypeReply, r.2, true)
      | none =>
        (.SimpleString ("ERR all members must be bulk strings".toList), store, false)
    | _ => (.SimpleString ("ERR key must be a bulk string".toList), store, false)

/-- `handle_zscore` (read lock only). -/
def handle_zscore (cmdArray : List RespValue) (store : FerroStore) (now : Nat) :
    RespValue :=
  if cmdArray.length ≠ 3 then
    .SimpleString ("ERR wrong number of arguments for 'zscore' command".toList)
  else
    match cmdArray with
    | [_, .BulkString key, .BulkString member] =>
      match FerroStore.zscore store now key member with
      | .ok (some score) => .BulkString (intChars score)
      | .ok none => .Null
      | .error _ => wrongTypeReply
    | _ => .SimpleString ("ERR arguments must be bulk strings".toList)

/-- `handle_zrange` (read lock only). -/
def handle_zrange (cmdArray : List RespValue) (store : FerroStore) (now : Nat) :
    RespValue :=
  if cmdArray.length < 4 ∨ cmdArray.length > 5 then
    .SimpleString ("ERR wrong number of arguments for 'zrange' command".toList)
  else
    match cmdArray with
    | _ :: .BulkString key :: .BulkString startStr :: .BulkString stopStr :: restArgs =>
      (match rustParseInt startStr with
       | none => .SimpleString ("ERR value is not an integer".toList)
       | some start =>
         match rustParseInt stopStr with
         | none => .SimpleString ("ERR value is not an integer".toList)
         | some stop =>
           match restArgs with
           | [] =>
             (match FerroStore.zrange store now key start stop false with
              | .ok values => .Array (values.map RespValue.BulkString)
              | .error _ => wrongTypeReply)
           | [.BulkString flag] =>
             (match FerroStore.zrange store now key start stop
                 (upperStr flag == "WITHSCORES".toList) with
              | .ok values => .Array (values.map RespValue.BulkString)
              | .error _ => wrongTypeReply)
           | _ => .SimpleString ("ERR syntax error".toList))
    | _ => .SimpleString ("ERR arguments must be bulk strings".toList)

/-- `handle_zrank` (read lock only). -/
def handle_zrank (cmdArray : List RespValue) (store : FerroStore) (now : Nat) :
    RespValue :=
  if cmdArray.length ≠ 3 then
    .SimpleString ("ERR wrong number of arguments for 'zrank' command".toList)
  else
    match cmdArray with
    | [_, .BulkString key, .BulkString member] =>
      match FerroStore.zrank store now key member with
      | .ok (some rank) => .Integer (Int.ofNat rank)
      | .ok none => .Null
      | .error _ => wrongTypeReply
    | _ => .SimpleString ("ERR arguments must be bulk strings".toList)

/-- `handle_zcard` (read lock only). -/
def handle_zcard (cmdArray : List RespValue) (store : FerroStore) (now : Nat) :
    RespValue :=
  if cmdArray.length ≠ 2 then
    .SimpleString ("ERR wrong number of arguments for 'zcard' command".toList)
  else
    match cmdArray with
    | [_, .BulkString key] =>
      match FerroStore.zcard store now key with
      | .ok size => .Integer (Int.ofNat size)
      | .error _ => wrongTypeReply
    | _ => .SimpleString ("ERR key must be a bulk string".toList)

/-- `handle_subscribe` with the pub/sub hub absent. -/
def handle_subscribe (cmdArray : List RespValue) : RespValue :=
  if cmdArray.length < 2 then
    .SimpleString ("ERR wrong number of arguments for 'subscribe' command".toList)
  else .SimpleString ("ERR pub/sub not available".toList)

/-- `handle_unsubscribe` with subscription tracking absent. -/
def handle_unsubscribe (cmdArray : List RespValue) : RespValue :=
  .SimpleString ("ERR subscription tracking not available".toList)

/-- `handle_publish` with the pub/sub hub absent. -/
def handle_publish (cmdArray : List RespValue) : RespValue :=
  if cmdArray.length ≠ 3 then
    .SimpleString ("ERR wrong number of arguments for 'publish' command".toList)
  else .SimpleString ("ERR pub/sub not available".toList)

/-- The dispatch match of `handle_command` (src/commands.rs lines 63-112).
The third component records whether the chosen handler invokes
write-locking store operations; the handlers have no access to the
append-only log. -/
def dispatch (cmdName : Str) (cmdArray : List RespValue) (store : FerroStore)
    (now : Nat) : RespValue × FerroStore × Bool :=
  if cmdName = "SET".toList then handle_set cmdArray store
  else if cmdName = "GET".toList then handle_get cmdArray store now
  else if cmdName = "PING".toList then (handle_ping cmdArray, store, false)
  else if cmdName = "EXISTS".toList then handle_exists cmdArray store now
  else if cmdName = "DEL".toList then handle_del cmdArray store
  else if cmdName = "MGET".toList then handle_mget cmdArray store now
  else if cmdName = "MSET".toList then handle_mset cmdArray store
  else if cmdName = "EXPIRE".toList then handle_expire cmdArray store now
  else if cmdName = "TTL".toList then handle_ttl cmdArray store now
  else if cmdName = "PERSIST".toList then handle_persist cmdArray store now
  else if cmdName = "SETEX".toList then handle_setex cmdArray store now
  else if cmdName = "LPUSH".toList then handle_lpush cmdArray store now
  else if cmdName = "RPUSH".toList then handle_rpush cmdArray store now
  else if cmdName = "LPOP".toList then handle_lpop cmdArray store now
  else if cmdName = "RPOP".toList then handle_rpop cmdArray store now
  else if cmdName = "LLEN".toList then handle_llen cmdArray store now
  else if cmdName = "LRANGE".toList then handle_lrange cmdArray store now
  else if cmdName = "SAVE".toList then (handle_save cmdArray, store, false)
  else if cmdName = "BGSAVE".toList then (handle_bgsave cmdArray, store, false)
  else if cmdName = "LASTSAVE".toList then (handle_lastsave cmdArray, store, false)
  else if cmdName = "DBSIZE".toList then (handle_dbsize cmdArray store, store, false)
  else if cmdName = "BGREWRITEAOF".toList then
    (handle_bgrewriteaof cmdArray, store, false)
  else if cmdName = "ZADD".toList then handle_zadd cmdArray store now
  else if cmdName = "ZREM".toList then handle_zrem cmdArray store now
  else if cmdName = "ZSCORE".toList then (handle_zscore cmdArray store now, store, false)
  else if cmdName = "ZRANGE".toList then (handle_zrange cmdArray store now, store, false)
  else if cmdName = "ZRANK".toList then (handle_zrank cmdArray store now, store, false)
  else if cmdName = "ZCARD".toList then (handle_zcard cmdArray store now, store, false)
  else if cmdName = "SADD".toList then handle_sadd cmdArray store now
  else if cmdName = "SREM".toList then handle_srem cmdArray store now
  else if cmdName = "SMEMBERS".toList then handle_smembers cmdArray store now
  else if cmdName = "SISMEMBER".toList then handle_sismember cmdArray store now
  else if cmdName = "SCARD".toList then handle_scard cmdArray store now
  else if cmdName = "SINTER".toList then (handle_sinter cmdArray store now, store, false)
  else if cmdName = "SUNION".toList then (handle_sunion cmdArray store now, store, false)
  else if cmdName = "SDIFF".toList then (handle_sdiff cmdArray store now, store, false)
  else if cmdName = "SUBSCRIBE".toList then (handle_subscribe cmdArray, store, false)
  else if cmdName = "UNSUBSCRIBE".toList then (handle_unsubscribe cmdArray, store, false)
  else if cmdName = "PUBLISH".toList then (handle_publish cmdArray, store, false)
  else (.SimpleString (("ERR unknown command ".toList) ++ cmdName), store, false)

/-- `handle_command` (src/commands.rs lines 6-113).  `aof` states whether an
AofWriter was supplied, `subscribed` whether `client_subs` reports an active
subscription.  The result is the reply, the store after the command, and
the trace of log appends and store write-lock acquisitions; `none` models
the panic of the unguarded index `&cmd_array[0]`. -/
def handle_command (value : RespValue) (store : FerroStore) (now : Nat)
    (aof : Bool) (subscribed : Bool) :
    Option (RespValue × FerroStore × List Ev) :=
  match value with
  | .Array cmdArray =>
    match cmdArray with
    | [] => none
    | first :: _ =>
      match first with
      | .BulkString s =>
        let cmdName := upperStr s
        if subscribed &&
            !(cmdName == "SUBSCRIBE".toList || cmdName == "UNSUBSCRIBE".toList ||
              cmdName == "PING".toList || cmdName == "QUIT".toList) then
          some (.SimpleString
            ("ERR only (P)SUBSCRIBE / (P)UNSUBSCRIBE / PING / QUIT allowed in this context".toList),
            store, [])
        else
          let logEvs : List Ev :=
            if shouldLog cmdName && aof then [.aofAppend (.Array cmdArray)] else []
          let r := dispatch cmdName cmdArray store now
          some (r.1, r.2.1, logEvs ++ (if r.2.2 then [Ev.storeWrite] else []))
      | _ =>
        some (.BulkString ("ERR command must be a bulk string".toList), store, [])
  | _ => some (.SimpleString ("ERR expected array".toList), store, [])

/-- In a trace that lists all append events first and all store-write
events second, every append index precedes every store-write index. -/
theorem appends_precede_writes (l1 l2 : List Ev)
    (h1 : ∀ e ∈ l1, ∃ c, e = Ev.aofAppend c)
    (h2 : ∀ e ∈ l2, e = Ev.storeWrite) :
    ∀ (i j : Nat) (c : RespValue), (l1 ++ l2)[i]? = some (Ev.aofAppend c) →
      (l1 ++ l2)[j]? = some Ev.storeWrite → i < j := by
  intro i j c hi hj
  have hi_lt : i < l1.length := by
    by_contra hge
    push_neg at hge
    rw [List.getElem?_append_right hge] at hi
    rcases List.getElem?_eq_some.mp hi with ⟨hlen, hEq⟩
    have := h2 _ (hEq ▸ List.getElem_mem hlen)
    exact Ev.noConfusion this
  have hj_ge : l1.length ≤ j := by
    by_contra hlt
    push_neg at hlt
    rw [List.getElem?_append, if_pos hlt] at hj
    rcases List.getElem?_eq_some.mp hj with ⟨hlen, hEq⟩
    rcases h1 _ (hEq ▸ List.getElem_mem hlen) with ⟨c2, hc2⟩
    exact Ev.noConfusion hc2
  omega

/-- C9: for every dispatched command array (bulk-string command name, no
subscribe mode), the command is appended to the AOF exactly when a writer
is present and the upper-cased name is one of the fourteen mutating
commands SET, DEL, EXPIRE, PERSIST, SETEX, MSET, LPUSH, RPUSH, LPOP, RPOP,
SADD, SREM, ZADD, ZREM; and in the event trace every append precedes every
store write-lock acquisition. -/
theorem C9_log_decision (store : FerroStore) (now : Nat) (aof : Bool)
    (name : Str) (args : List RespValue) :
    ∃ (reply : RespValue) (st2 : FerroStore) (evs : List Ev),
      handle_command (.Array (.BulkString name :: args)) store now aof false =
        some (reply, st2, evs) ∧
      ((∃ c, Ev.aofAppend c ∈ evs) ↔
        (aof = true ∧ shouldLog (upperStr name) = true)) ∧
      (shouldLog (upperStr name) = true ↔
        upperStr name ∈ (["SET", "DEL", "EXPIRE", "PERSIST", "SETEX", "MSET",
          "LPUSH", "RPUSH", "LPOP", "RPOP", "SADD", "SREM", "ZADD",
          "ZREM"].map String.toList)) ∧
      (∀ (i j : Nat) (c : RespValue), evs[i]? = some (Ev.aofAppend c) →
        evs[j]? = some Ev.storeWrite → i < j) := by
  refine ⟨(dispatch (upperStr name) (.BulkString name :: args) store now).1,
    (dispatch (upperStr name) (.BulkString name :: args) store now).2.1,
    (if shouldLog (upperStr name) && aof then
      [Ev.aofAppend (.Array (.BulkString name :: args))] else []) ++
      (if (dispatch (upperStr name) (.BulkString name :: args) store now).2.2 then
        [Ev.storeWrite] else []),
    ?_, ?_, ?_, ?_⟩
  · rfl
  · constructor
    · rintro ⟨c, hc⟩
      rcases List.mem_append.mp hc with h | h
      · by_cases hcond : (shouldLog (upperStr name) && aof) = true
        · exact ⟨(Bool.and_eq_true _ _ ▸ hcond).2, (Bool.and_eq_true _ _ ▸ hcond).1⟩
        · rw [if_neg hcond] at h
          exact absurd h (List.not_mem_nil _)
      · by_cases hw : (dispatch (upperStr name) (.BulkString name :: args) store now).2.2 = true
        · rw [if_pos hw] at h
          rcases List.mem_singleton.mp h with h
          exact Ev.noConfusion h
        · rw [if_neg hw] at h
          exact absurd h (List.not_mem_nil _)
    · rintro ⟨haof, hlog⟩
      refine ⟨.Array (.BulkString name :: args), List.mem_append.mpr (Or.inl ?_)⟩
      rw [if_pos (by rw [hlog, haof]; rfl)]
      exact List.mem_singleton.mpr rfl
  · simp only [shouldLog, Bool.or_eq_true, beq_iff_eq, List.map_cons, List.map_nil,
      List.mem_cons, List.not_mem_nil, or_false]
    tauto
  · apply appends_precede_writes
    · intro e he
      by_cases hcond : (shouldLog (upperStr name) && aof) = true
      · rw [if_pos hcond] at he
        exact ⟨_, List.mem_singleton.mp he⟩
      · rw [if_neg hcond] at he
        exact absurd he (List.not_mem_nil _)
    · intro e he
      by_cases hw : (dispatch (upperStr name) (.BulkString name :: args) store now).2.2 = true
      · rw [if_pos hw] at he
        exact List.mem_singleton.mp he
      · rw [if_neg hw] at he
        exact absurd he (List.not_mem_nil _)

/-- C10: the dispatcher is total for every non-empty command array and for
every non-array value, but the legal frame `*0` parses to the empty array,
on which `handle_command` hits the unguarded index `&cmd_array[0]` and
panics (modeled as `none`). -/
theorem C10_dispatcher_totality :
    parse_resp ("*0\r\n".toList) = .ok (.Array []) ∧
    (∀ (store : FerroStore) (now : Nat) (aof subscribed : Bool),
      handle_command (.Array []) store now aof subscribed = none) ∧
    (∀ (store : FerroStore) (now : Nat) (aof subscribed : Bool)
        (first : RespValue) (rest : List RespValue),
      (handle_command (.Array (first :: rest)) store now aof subscribed).isSome
        = true) ∧
    (∀ (store : FerroStore) (now : Nat) (aof subscribed : Bool) (s : Str),
      (handle_command (.SimpleString s) store now aof subscribed).isSome = true) := by
  refine ⟨rfl, fun _ _ _ _ => rfl, ?_, fun _ _ _ _ _ => rfl⟩
  intro store now aof subscribed first rest
  cases first
  case BulkString s =>
    simp only [handle_command]
    split
    · rfl
    · rfl
  all_goals rfl
